import Mathlib

/-!
Verification of the repo-health-tracker metrics and scoring engine.

This file shallowly embeds the core of `src/repo_health` in Lean:

* timestamps are abstracted to integers (`Time := Int`, seconds); an ISO
  string that the Python code would parse successfully is modelled as
  `some t`, an absent (`None`) value as `none`.  `parse_datetime` is then
  the identity on this abstraction (Python raises only on malformed
  strings, which have no representation here).
* Python floats are modelled as rationals (`ℚ`); all arithmetic the
  engine performs (sums, divisions, medians, linear interpolation) is
  exact in `ℚ`.
* Python dictionaries are modelled as insertion-ordered association
  lists, `Counter` as an association list with `Nat` counts, and sets as
  duplicate-free lists.
* Python exceptions (`TypeError` from comparing `None` with a datetime,
  `ValueError` from `min` of an empty sequence, `KeyError` from a missing
  key) are modelled with `Except String`.
* `datetime.now(...)` is threaded as an explicit `now : Time` parameter.
-/

namespace RepoHealth

/-- Instants, in seconds. -/
abbrev Time := Int

/-- Identity dictionaries `{login, id}`; a missing or null id is `none`.
An id of `0` is representable because the Python code tests ids for
truthiness, under which `0` and `None` coincide. -/
structure Identity where
  login : String
  id : Option Int
deriving DecidableEq

/-- Review dictionaries `{author, submittedAt, ...}`. -/
structure Review where
  author : Option Identity
  submittedAt : Option Time
deriving DecidableEq

/-- Comment dictionaries `{author, createdAt}`. -/
structure Comment where
  author : Option Identity
  createdAt : Option Time
deriving DecidableEq

/-- PR / issue dictionaries, with the fields the engine reads. -/
structure Item where
  number : Int
  state : String
  createdAt : Option Time
  mergedAt : Option Time
  author : Option Identity
  reviews : List Review
  comments : List Comment
deriving DecidableEq

/-- Embeds `helpers.parse_datetime`: `None` maps to `None`, a (valid)
ISO string to its instant.  On the `Option Time` abstraction this is the
identity. -/
def parse_datetime : Option Time → Option Time
  | none => none
  | some t => some t

/-- Python truthiness of an optional integer id (`None` and `0` are falsy). -/
def idTruthy : Option Int → Bool
  | none => false
  | some n => n != 0

/-! ### Stable insertion sort (the model of Python `sorted` / `list.sort`)

Python `sorted` is a stable sort; any stable sort agrees with it, and the
insertion sort below inserts each element after existing equal elements,
so it is stable. -/

/-- Inserts `a` into a sorted list, after all elements `b` with `le b a`. -/
def insertOrdered (le : α → α → Bool) (a : α) : List α → List α
  | [] => [a]
  | b :: bs => if le b a then b :: insertOrdered le a bs else a :: b :: bs

/-- Stable sort of `l` by the boolean comparison `le`. -/
def pysort (le : α → α → Bool) (l : List α) : List α :=
  l.foldl (fun acc x => insertOrdered le x acc) []

/-- Comparison used to sort rational samples. -/
def qle (a b : ℚ) : Bool := decide (a ≤ b)

/-- Embeds `helpers.safe_median`: `statistics.median` of a nonempty list
(middle element, or mean of the two middles), and `0` for an empty list. -/
def safe_median (values : List ℚ) : ℚ :=
  let s := pysort qle values
  let n := s.length
  if n = 0 then 0
  else if n % 2 = 1 then s.getD (n / 2) 0
  else (s.getD (n / 2 - 1) 0 + s.getD (n / 2) 0) / 2

/-! ### Counters (`collections.Counter`) as insertion-ordered association lists -/

/-- Increments the count of `k`, appending a fresh entry when absent
(dict insertion order). -/
def counterAdd [DecidableEq K] (c : List (K × Nat)) (k : K) : List (K × Nat) :=
  match c with
  | [] => [(k, 1)]
  | (k0, n) :: rest => if k0 = k then (k0, n + 1) :: rest else (k0, n) :: counterAdd rest k

/-- Sum of all counts (`sum(counter.values())`). -/
def counterTotal (c : List (K × Nat)) : Nat := (c.map (fun e => e.2)).sum

/-- Comparison that sorts counter entries by count, largest first
(`Counter.most_common` order; ties keep insertion order by stability). -/
def countDescLE (a b : K × Nat) : Bool := decide (b.2 ≤ a.2)

/-- Embeds `Counter.most_common(n)`. -/
def most_common (c : List (K × Nat)) (n : Nat) : List (K × Nat) :=
  (pysort countDescLE c).take n

/-! ### Execution metrics (`MetricsCalculator.compute_execution_metrics`) -/

/-- Embeds `author_obj.get("id") if author_obj else None`. -/
def authorIdOf (it : Item) : Option Int :=
  match it.author with
  | none => none
  | some a => a.id

/-- Qualifying comment response events of a PR: comments whose author is
present, has an id different from the PR author id, and whose lowercased
login is not the codecov bot.  Each event is the (possibly absent) parsed
comment timestamp. -/
def commentResponseEvents (author_id : Option Int) (cs : List Comment) : List (Option Time) :=
  cs.filterMap fun c =>
    match c.author with
    | none => none
    | some ca =>
      if ca.id != author_id && ca.login.toLower != "codecov[bot]" then
        some (parse_datetime c.createdAt)
      else none

/-- Qualifying review response events of a PR: reviews whose author is
present with an id different from the PR author id. -/
def reviewResponseEvents (author_id : Option Int) (rs : List Review) : List (Option Time) :=
  rs.filterMap fun r =>
    match r.author with
    | none => none
    | some ra => if ra.id != author_id then some (parse_datetime r.submittedAt) else none

/-- Reviewer ids counted by the same review loop (one per qualifying review). -/
def reviewerIdsOf (author_id : Option Int) (rs : List Review) : List (Option Int) :=
  rs.filterMap fun r =>
    match r.author with
    | none => none
    | some ra => if ra.id != author_id then some ra.id else none

/-- Response events of a PR, comments first, then reviews (source loop order). -/
def prResponseEvents (pr : Item) : List (Option Time) :=
  commentResponseEvents (authorIdOf pr) pr.comments ++
    reviewResponseEvents (authorIdOf pr) pr.reviews

/-- Minimum of a nonempty list of instants (`min`). -/
def listMin (t : Time) (ts : List Time) : Time := ts.foldl min t

/-- Merge duration of a PR in fractional days, when created and merged
timestamps are both present. -/
def mergeDur (pr : Item) : Option ℚ :=
  match parse_datetime pr.createdAt, parse_datetime pr.mergedAt with
  | some c, some m => some (((m - c : Int) : ℚ) / 86400)
  | _, _ => none

/-- The per-PR condition under which the source raises `ValueError`:
`created` present, `response_events` nonempty, but every event is `None`
(so `min(filter(None, response_events))` gets an empty sequence). -/
def execBad (pr : Item) : Bool :=
  (parse_datetime pr.createdAt).isSome &&
    !(prResponseEvents pr).isEmpty &&
    ((prResponseEvents pr).filterMap (fun e => e)).isEmpty

/-- First response time of a PR in fractional hours, when defined. -/
def respTime (pr : Item) : Option ℚ :=
  match parse_datetime pr.createdAt with
  | none => none
  | some c =>
    if (prResponseEvents pr).isEmpty then none
    else
      match (prResponseEvents pr).filterMap (fun e => e) with
      | [] => none
      | t :: ts => some (((listMin t ts - c : Int) : ℚ) / 3600)

/-- The main loop of `compute_execution_metrics`, carrying the
`merge_durations`, `first_response_times` and `reviewer_counts`
accumulators; errors with `ValueError` exactly where the source would. -/
def execLoop : List Item → List ℚ → List ℚ → List (Option Int × Nat) →
    Except String (List ℚ × List ℚ × List (Option Int × Nat))
  | [], md, fr, rc => Except.ok (md, fr, rc)
  | pr :: rest, md, fr, rc =>
    let created := parse_datetime pr.createdAt
    let merged := parse_datetime pr.mergedAt
    let md1 := match created, merged with
      | some c, some m => md ++ [((m - c : Int) : ℚ) / 86400]
      | _, _ => md
    let aid := authorIdOf pr
    let events := commentResponseEvents aid pr.comments ++ reviewResponseEvents aid pr.reviews
    let rc1 := (reviewerIdsOf aid pr.reviews).foldl counterAdd rc
    match created with
    | none => execLoop rest md1 fr rc1
    | some c =>
      if events.isEmpty then execLoop rest md1 fr rc1
      else
        match events.filterMap (fun e => e) with
        | [] => Except.error "ValueError"
        | t :: ts => execLoop rest md1 (fr ++ [((listMin t ts - c : Int) : ℚ) / 3600]) rc1

/-- Result shape of `compute_execution_metrics`. -/
structure ExecutionMetrics where
  median_merge_days : ℚ
  median_first_response_hours : ℚ
  review_top1_pct : ℚ
  review_top2_pct : ℚ
  total_prs : Nat
  top_reviewers_by_id : List (Option Int × Nat)
deriving DecidableEq

/-- Embeds `MetricsCalculator.compute_execution_metrics`. -/
def compute_execution_metrics (prs_subset : List Item) : Except String ExecutionMetrics := do
  let (md, fr, rc) ← execLoop prs_subset [] [] []
  let review_total := counterTotal rc
  let tops := most_common rc 2
  let review_top1_pct : ℚ :=
    if review_total > 0 then ((tops.headD (none, 0)).2 : ℚ) / (review_total : ℚ) * 100 else 0
  let review_top2_pct : ℚ :=
    if review_total > 0 then (((tops.map (fun e => e.2)).sum : ℚ)) / (review_total : ℚ) * 100 else 0
  pure
    { median_merge_days := safe_median md
      median_first_response_hours := safe_median fr
      review_top1_pct := review_top1_pct
      review_top2_pct := review_top2_pct
      total_prs := prs_subset.length
      top_reviewers_by_id := most_common rc 10 }

/-! ### Community metrics (`MetricsCalculator.compute_community_metrics`) -/

/-- The author id counted by the community / first-seen loops: present
author whose id is truthy.  Returns the unwrapped id. -/
def countedAuthorId (it : Item) : Option Int :=
  match it.author with
  | none => none
  | some a => if idTruthy a.id then a.id else none

/-- Python `set.add` on a set modelled as a duplicate-free list. -/
def addSet (l : List Int) (u : Int) : List Int := if u ∈ l then l else l ++ [u]

/-- The loop of `compute_community_metrics`, carrying `author_counts`,
`new_contributors` and `returning_contributors`. -/
def commLoop (fs : List (Int × Time)) (ws : Time) :
    List Item → List (Int × Nat) → List Int → List Int →
    List (Int × Nat) × List Int × List Int
  | [], ac, nw, rt => (ac, nw, rt)
  | it :: rest, ac, nw, rt =>
    match countedAuthorId it with
    | none => commLoop fs ws rest ac nw rt
    | some u =>
      match parse_datetime it.createdAt with
      | none => commLoop fs ws rest ac nw rt
      | some _ =>
        let ac1 := counterAdd ac u
        match fs.lookup u with
        | some t =>
          if ws ≤ t then commLoop fs ws rest ac1 (addSet nw u) rt
          else commLoop fs ws rest ac1 nw (addSet rt u)
        | none => commLoop fs ws rest ac1 nw (addSet rt u)

/-- Result shape of `compute_community_metrics`. -/
structure CommunityMetrics where
  unique_contributors : Nat
  new_contributors : Nat
  returning_contributors : Nat
  return_rate_pct : ℚ
  author_top1_pct : ℚ
  author_top2_pct : ℚ
  top_authors_by_id : List (Int × Nat)
deriving DecidableEq

/-- Embeds `MetricsCalculator.compute_community_metrics`; `fs` is the
calculator's `first_seen_global` map. -/
def compute_community_metrics (fs : List (Int × Time)) (items_subset : List Item)
    (window_start : Time) : CommunityMetrics :=
  let acc := commLoop fs window_start items_subset [] [] []
  let ac := acc.1
  let nw := acc.2.1
  let rt := acc.2.2
  let total_actions := counterTotal ac
  let tops := most_common ac 2
  let author_top1_pct : ℚ :=
    if total_actions > 0 then ((tops.headD (0, 0)).2 : ℚ) / (total_actions : ℚ) * 100 else 0
  let author_top2_pct : ℚ :=
    if total_actions > 0 && tops.length > 1 then
      (((tops.map (fun e => e.2)).sum : ℚ)) / (total_actions : ℚ) * 100
    else 0
  { unique_contributors := ac.length
    new_contributors := nw.length
    returning_contributors := rt.length
    return_rate_pct := if ac.length > 0 then (rt.length : ℚ) / (ac.length : ℚ) * 100 else 0
    author_top1_pct := author_top1_pct
    author_top2_pct := author_top2_pct
    top_authors_by_id := most_common ac 10 }

/-! ### Backlog metrics (`MetricsCalculator.compute_backlog`) -/

/-- PRs open as of `as_of`: parseable `createdAt <= as_of` and
(`mergedAt` absent or `> as_of`). -/
def backlogOpenPrs (prs : List Item) (as_of : Time) : List Item :=
  prs.filter fun pr =>
    match parse_datetime pr.createdAt, parse_datetime pr.mergedAt with
    | some c, some m => decide (c ≤ as_of) && decide (as_of < m)
    | some c, none => decide (c ≤ as_of)
    | none, _ => false

/-- Issues open as of `as_of`: parseable `createdAt <= as_of` and
fetch-time `state != "CLOSED"`. -/
def backlogOpenIssues (issues : List Item) (as_of : Time) : List Item :=
  issues.filter fun iss =>
    match parse_datetime iss.createdAt with
    | some c => decide (c ≤ as_of) && iss.state != "CLOSED"
    | none => false

/-- Embeds `(as_of - parse_datetime(item["createdAt"])).days`
(`timedelta.days` floors). -/
def itemAgeDays (as_of : Time) (it : Item) : Int :=
  Int.fdiv (as_of - (parse_datetime it.createdAt).getD 0) 86400

/-- Result shape of `compute_backlog`. -/
structure BacklogMetrics where
  open_pr_count : Nat
  open_issue_count : Nat
  median_open_pr_age_days : ℚ
  median_open_issue_age_days : ℚ
deriving DecidableEq

/-- Embeds `MetricsCalculator.compute_backlog`. -/
def compute_backlog (prs issues : List Item) (as_of : Time) : BacklogMetrics :=
  let op := backlogOpenPrs prs as_of
  let oi := backlogOpenIssues issues as_of
  { open_pr_count := op.length
    open_issue_count := oi.length
    median_open_pr_age_days := safe_median (op.map (fun pr => ((itemAgeDays as_of pr : Int) : ℚ)))
    median_open_issue_age_days := safe_median (oi.map (fun iss => ((itemAgeDays as_of iss : Int) : ℚ))) }

/-! ### First-contribution index (`MetricsCalculator._build_first_seen_map`) -/

/-- Sort key of an item: its parsed `createdAt`, with absent timestamps
standing for `datetime.max` (they sort last). -/
def itemKey (x : Item) : Option Time := parse_datetime x.createdAt

/-- Comparison by `itemKey`, `none` acting as plus infinity. -/
def keyLE (a b : Item) : Bool :=
  match itemKey a, itemKey b with
  | some x, some y => decide (x ≤ y)
  | some _, none => true
  | none, some _ => false
  | none, none => true

/-- Scan of the sorted item list: record the first (hence earliest)
parseable timestamp for each truthy author id. -/
def firstSeenScan : List Item → List (Int × Time) → List (Int × Time)
  | [], acc => acc
  | x :: rest, acc =>
    match countedAuthorId x, parse_datetime x.createdAt with
    | some u, some c =>
      if (acc.lookup u).isSome then firstSeenScan rest acc
      else firstSeenScan rest (acc ++ [(u, c)])
    | _, _ => firstSeenScan rest acc

/-- Embeds `MetricsCalculator._build_first_seen_map` over the combined
item list (`prs + issues`). -/
def build_first_seen_map (items : List Item) : List (Int × Time) :=
  firstSeenScan (pysort keyLE items) []

/-! ### Rolling windows and helpers -/

/-- Recursion of `helpers.filter_last_days`: the source compares
`parse_datetime(item.get("createdAt")) >= cutoff`, which raises
`TypeError` when the left side is `None`. -/
def filterLastDaysGo (cutoff : Time) : List Item → Except String (List Item)
  | [] => Except.ok []
  | x :: rest =>
    match parse_datetime x.createdAt with
    | none => Except.error "TypeError"
    | some t =>
      match filterLastDaysGo cutoff rest with
      | Except.error e => Except.error e
      | Except.ok tail => Except.ok (if cutoff ≤ t then x :: tail else tail)

/-- Embeds `helpers.filter_last_days` (cutoff `now - days`). -/
def filter_last_days (items : List Item) (days : Int) (now : Time) : Except String (List Item) :=
  filterLastDaysGo (now - days * 86400) items

/-! ### Calendar arithmetic for the monthly framing

Conversions between epoch days and the proleptic Gregorian calendar
(standard civil-calendar algorithms), used to embed `strftime("%Y-%m")`,
`strptime`, and `datetime.replace(month=..., day=1)`. -/

/-- Civil date `(year, month, day)` of an epoch day number. -/
def civilFromDays (z0 : Int) : Int × Int × Int :=
  let z := z0 + 719468
  let era := Int.fdiv z 146097
  let doe := z - era * 146097
  let yoe := Int.fdiv (doe - Int.fdiv doe 1460 + Int.fdiv doe 36524 - Int.fdiv doe 146096) 365
  let y := yoe + era * 400
  let doy := doe - (365 * yoe + Int.fdiv yoe 4 - Int.fdiv yoe 100)
  let mp := Int.fdiv (5 * doy + 2) 153
  let d := doy - Int.fdiv (153 * mp + 2) 5 + 1
  let m := mp + (if mp < 10 then 3 else -9)
  (y + (if m ≤ 2 then 1 else 0), m, d)

/-- Epoch day number of a civil date. -/
def daysFromCivil (y0 m d : Int) : Int :=
  let y := y0 - (if m ≤ 2 then 1 else 0)
  let era := Int.fdiv y 400
  let yoe := y - era * 400
  let mp := m + (if m > 2 then -3 else 9)
  let doy := Int.fdiv (153 * mp + 2) 5 + d - 1
  let doe := yoe * 365 + Int.fdiv yoe 4 - Int.fdiv yoe 100 + doy
  era * 146097 + doe - 719468

/-- Zero-pads a month number to two digits. -/
def pad2 (n : Int) : String := if n < 10 then "0" ++ toString n else toString n

/-- Embeds `created.strftime("%Y-%m")`. -/
def monthKeyOf (t : Time) : String :=
  let c := civilFromDays (Int.fdiv t 86400)
  toString c.1 ++ "-" ++ pad2 c.2.1

/-- Appends an item to the bucket of key `k` (defaultdict insertion order). -/
def bucketAdd (bs : List (String × List Item)) (k : String) (x : Item) :
    List (String × List Item) :=
  match bs with
  | [] => [(k, [x])]
  | (k0, l) :: rest =>
    if k0 = k then (k0, l ++ [x]) :: rest else (k0, l) :: bucketAdd rest k x

/-- Embeds `helpers.group_by_month` (items without a parseable
`createdAt` are skipped). -/
def group_by_month (items : List Item) : List (String × List Item) :=
  items.foldl
    (fun bs x =>
      match parse_datetime x.createdAt with
      | some c => bucketAdd bs (monthKeyOf c) x
      | none => bs)
    []

/-- Parses a `"YYYY-MM"` key back into year and month
(`strptime(month + "-01", "%Y-%m-%d")`). -/
def parseMonthKey (s : String) : Int × Int :=
  match (s.splitOn "-").map (fun p => p.toNat?.getD 0) with
  | [y, m] => ((y : Int), (m : Int))
  | _ => (0, 0)

/-- Midnight of the first day of the month named by the key. -/
def monthStartTime (s : String) : Time :=
  let ym := parseMonthKey s
  daysFromCivil ym.1 ym.2 1 * 86400

/-- Midnight of the first day of the following month; the source rolls
December into January of the next year. -/
def nextMonthTime (s : String) : Time :=
  let ym := parseMonthKey s
  if ym.2 < 12 then daysFromCivil ym.1 (ym.2 + 1) 1 * 86400
  else daysFromCivil (ym.1 + 1) 1 1 * 86400

/-- Comparison used to sort month keys (Python `sorted` on strings). -/
def sle (a b : String) : Bool := decide (a ≤ b)

/-- Adds a key to a set of keys modelled as a duplicate-free list. -/
def addKey (l : List String) (k : String) : List String := if k ∈ l then l else l ++ [k]

/-- Distinct keys in first-occurrence order (model of a Python set that
is about to be sorted). -/
def dedupKeys (l : List String) : List String := l.foldl addKey []

/-! ### Aggregation orchestrator (`MetricsCalculator.analyze_all`) -/

/-- One window entry of the metrics document.  `analyze_all` stores a
`backlog` key only in monthly entries, so the field is optional and the
all-time and rolling entries carry `none`. -/
structure WindowMetrics where
  execution : ExecutionMetrics
  community : CommunityMetrics
  backlog : Option BacklogMetrics
deriving DecidableEq

/-- The three rolling-window entries. -/
structure RollingWindows where
  last_365_days : WindowMetrics
  last_180_days : WindowMetrics
  last_90_days : WindowMetrics
deriving DecidableEq

/-- The nested metrics document produced by `analyze_all`. -/
structure MetricsDoc where
  all_time : WindowMetrics
  rolling_windows : RollingWindows
  monthly : List (String × WindowMetrics)
deriving DecidableEq

/-- Embeds `min(self.first_seen_global.values()) if self.first_seen_global
else now_utc()`. -/
def fsValuesMin (fs : List (Int × Time)) (now : Time) : Time :=
  match fs.map (fun e => e.2) with
  | [] => now
  | v :: vs => vs.foldl min v

/-- One iteration of the rolling-window loop of `analyze_all`. -/
def windowFor (fs : List (Int × Time)) (prs issues : List Item) (days : Int) (now : Time) :
    Except String WindowMetrics := do
  let wprs ← filter_last_days prs days now
  let wiss ← filter_last_days issues days now
  let ex ← compute_execution_metrics wprs
  let cm := compute_community_metrics fs (wprs ++ wiss) (now - days * 86400)
  pure { execution := ex, community := cm, backlog := none }

/-- The monthly loop of `analyze_all`; backlog is computed over the full
PR / issue lists as of the last day of each month. -/
def monthlyLoop (fs : List (Int × Time)) (prs issues : List Item)
    (mprs miss : List (String × List Item)) :
    List String → Except String (List (String × WindowMetrics))
  | [] => Except.ok []
  | month :: rest => do
    let month_prs := (mprs.lookup month).getD []
    let month_issues := (miss.lookup month).getD []
    let month_items := month_prs ++ month_issues
    let month_start := monthStartTime month
    let month_end := nextMonthTime month - 86400
    let ex ← compute_execution_metrics month_prs
    let cm := compute_community_metrics fs month_items month_start
    let bl := compute_backlog prs issues month_end
    let rest1 ← monthlyLoop fs prs issues mprs miss rest
    pure ((month, { execution := ex, community := cm, backlog := some bl }) :: rest1)

/-- Embeds `MetricsCalculator.analyze_all`, with `now` the injected
current time (the source reads the ambient clock). -/
def analyze_all (prs issues : List Item) (now : Time) : Except String MetricsDoc := do
  let fs := build_first_seen_map (prs ++ issues)
  let project_start := fsValuesMin fs now
  let at_ex ← compute_execution_metrics prs
  let at_cm := compute_community_metrics fs (prs ++ issues) project_start
  let w365 ← windowFor fs prs issues 365 now
  let w180 ← windowFor fs prs issues 180 now
  let w90 ← windowFor fs prs issues 90 now
  let mprs := group_by_month prs
  let miss := group_by_month issues
  let months := pysort sle (dedupKeys (mprs.map (fun e => e.1) ++ miss.map (fun e => e.1)))
  let monthly ← monthlyLoop fs prs issues mprs miss months
  pure
    { all_time := { execution := at_ex, community := at_cm, backlog := none }
      rolling_windows := { last_365_days := w365, last_180_days := w180, last_90_days := w90 }
      monthly := monthly }

/-! ### Scorer (`RepoHealthScorer`) -/

/-- The configured target bands of `RepoHealthScorer.__init__`. -/
def targets : List (String × (ℚ × ℚ)) :=
  [("median_merge_days", (1, 30)),
   ("median_first_response_hours", (2, 168)),
   ("review_top1_pct", (30, 90)),
   ("return_rate_pct", (60, 10)),
   ("median_open_pr_age_days", (7, 90)),
   ("median_open_issue_age_days", (14, 180))]

/-- Body of `RepoHealthScorer._score_metric` after the target lookup:
piecewise-linear 0-100 band scoring, 0 when no target is configured. -/
def score_with_target (target : Option (ℚ × ℚ)) (value : ℚ) : ℚ :=
  match target with
  | none => 0
  | some gb =>
    let good := gb.1
    let bad := gb.2
    if good < bad then
      if value ≤ good then 100
      else if value ≥ bad then 0
      else 100 * (bad - value) / (bad - good)
    else
      if value ≥ good then 100
      else if value ≤ bad then 0
      else 100 * (value - bad) / (good - bad)

/-- Embeds `RepoHealthScorer._score_metric`. -/
def score_metric (name : String) (value : ℚ) : ℚ :=
  score_with_target (targets.lookup name) value

/-- Embeds `RepoHealthScorer.calculate_execution_score` (sub-score and
breakdown triple). -/
def calculate_execution_score (em : ExecutionMetrics) : ℚ × (ℚ × ℚ × ℚ) :=
  let s1 := score_metric "median_merge_days" em.median_merge_days
  let s2 := score_metric "median_first_response_hours" em.median_first_response_hours
  let s3 := score_metric "review_top1_pct" em.review_top1_pct
  ((s1 + s2 + s3) / 3, (s1, s2, s3))

/-- Embeds `RepoHealthScorer.calculate_community_score`. -/
def calculate_community_score (cm : CommunityMetrics) : ℚ × ℚ :=
  let s := score_metric "return_rate_pct" cm.return_rate_pct
  (s / 1, s)

/-- Embeds `RepoHealthScorer.calculate_backlog_score`; its argument is
the (possibly absent) backlog mapping the scorer found, each field read
with default `0` as `backlog_metrics.get(..., 0)` does. -/
def calculate_backlog_score (bm : Option BacklogMetrics) : ℚ × (ℚ × ℚ) :=
  let v1 := (bm.map (fun b => b.median_open_pr_age_days)).getD 0
  let v2 := (bm.map (fun b => b.median_open_issue_age_days)).getD 0
  let s1 := score_metric "median_open_pr_age_days" v1
  let s2 := score_metric "median_open_issue_age_days" v2
  ((s1 + s2) / 2, (s1, s2))

/-- Round half to even at two decimals (Python `round(x, 2)` on the
rational model of the float). -/
def roundHalfEven (q : ℚ) : Int :=
  let f := ⌊q⌋
  let r := q - (f : ℚ)
  if r < 1 / 2 then f
  else if (1 : ℚ) / 2 < r then f + 1
  else if f % 2 = 0 then f else f + 1

/-- Python `round(q, 2)`. -/
def round2 (q : ℚ) : ℚ := (roundHalfEven (q * 100) : ℚ) / 100

/-- The score document of `calculate_overall_score` (sub-scores,
breakdown; the constant weights dictionary is elided). -/
structure ScoreDoc where
  overall_score : ℚ
  sub_execution : ℚ
  sub_community : ℚ
  sub_backlog : ℚ
  breakdown_execution : ℚ × ℚ × ℚ
  breakdown_community : ℚ
  breakdown_backlog : ℚ × ℚ
deriving DecidableEq

/-- Embeds `RepoHealthScorer.calculate_overall_score`: execution and
community scored from `all_time`, backlog from
`rolling_windows["last_90_days"].get("backlog", {})`, weights
0.4 / 0.4 / 0.2. -/
def calculate_overall_score (doc : MetricsDoc) : ScoreDoc :=
  let e := calculate_execution_score doc.all_time.execution
  let c := calculate_community_score doc.all_time.community
  let b := calculate_backlog_score doc.rolling_windows.last_90_days.backlog
  let overall := e.1 * (4 / 10) + c.1 * (4 / 10) + b.1 * (2 / 10)
  { overall_score := round2 overall
    sub_execution := round2 e.1
    sub_community := round2 c.1
    sub_backlog := round2 b.1
    breakdown_execution := e.2
    breakdown_community := c.2
    breakdown_backlog := b.2 }

/-! ### Stalled-action derivation (`FinalReporter._generate_stalled_actions`) -/

/-- Result shape of `_generate_stalled_actions`: four buckets of item
numbers. -/
structure StalledActions where
  archive_prs_over_365_days : List Int
  close_issues_over_730_days : List Int
  decision_required_prs_180_365_days : List Int
  decision_required_issues_180_365_days : List Int
deriving DecidableEq

/-- One bucket comprehension: the source indexes `item["createdAt"]`
directly (raising on an absent value) and keeps `item["number"]` when
the whole-day age satisfies `pred`. -/
def stalledFilterGo (now : Time) (pred : Int → Bool) : List Item → Except String (List Int)
  | [] => Except.ok []
  | x :: rest =>
    match x.createdAt with
    | none => Except.error "KeyError"
    | some c =>
      match stalledFilterGo now pred rest with
      | Except.error e => Except.error e
      | Except.ok tail =>
        Except.ok (if pred (Int.fdiv (now - c) 86400) then x.number :: tail else tail)

/-- Embeds `FinalReporter._generate_stalled_actions` with an injected
`now`. -/
def generate_stalled_actions (open_prs open_issues : List Item) (now : Time) :
    Except String StalledActions := do
  let a ← stalledFilterGo now (fun d => decide (365 < d)) open_prs
  let b ← stalledFilterGo now (fun d => decide (730 < d)) open_issues
  let c ← stalledFilterGo now (fun d => decide (180 < d) && decide (d ≤ 365)) open_prs
  let d ← stalledFilterGo now (fun d => decide (180 < d) && decide (d ≤ 365)) open_issues
  pure
    { archive_prs_over_365_days := a
      close_issues_over_730_days := b
      decision_required_prs_180_365_days := c
      decision_required_issues_180_365_days := d }

/-! ### Derived forms used by the lemmas -/

/-- Reviewer ids a single PR contributes to `reviewer_counts`. -/
def prReviewerIds (pr : Item) : List (Option Int) :=
  reviewerIdsOf (authorIdOf pr) pr.reviews

/-- Builds a counter from a list of keys. -/
def counterOf [DecidableEq K] (ids : List K) : List (K × Nat) :=
  ids.foldl counterAdd []

/-- Counted author events of an item list (one author id per item with a
truthy author id and parseable timestamp). -/
def eventAuthorIds (items : List Item) : List Int :=
  items.filterMap fun x =>
    match countedAuthorId x, parse_datetime x.createdAt with
    | some u, some _ => some u
    | _, _ => none

/-- Classification test of the community loop: new iff the first-seen
map holds a value `>= window_start` for the id. -/
def isNewAuthor (fs : List (Int × Time)) (ws : Time) (u : Int) : Bool :=
  match fs.lookup u with
  | some t => decide (ws ≤ t)
  | none => false

/-- Deduplication in first-occurrence order. -/
def setOf (l : List Int) : List Int := l.foldl addSet []

/-- The parseable timestamp of an item when it is a counted contribution
of author `u`. -/
def eligCreated (u : Int) (x : Item) : Option Time :=
  match countedAuthorId x, parse_datetime x.createdAt with
  | some v, some c => if v = u then some c else none
  | _, _ => none

/-- Minimum of a list of instants, `none` on the empty list. -/
def minOption (l : List Time) : Option Time :=
  match l with
  | [] => none
  | t :: ts => some (listMin t ts)

/-- Counts of a counter in `most_common` order. -/
def sortedCounts (c : List (K × Nat)) : List Nat :=
  (pysort countDescLE c).map (fun e => e.2)

/-- Keys of a counter / association list, in insertion order. -/
def counterKeys (c : List (K × V)) : List K := c.map (fun e => e.1)

/-- Count of `k` in a counter (0 when absent). -/
def lookupCount [BEq K] (c : List (K × Nat)) (k : K) : Nat := (c.lookup k).getD 0

/-- One step of a running minimum over `Option Time`. -/
def minFoldStep (t : Time) (o : Option Time) : Option Time :=
  match o with
  | none => some t
  | some b => some (min t b)

/-- Running-minimum form of `minOption`. -/
def minFold (l : List Time) : Option Time := l.foldr minFoldStep none

/-- Merge of two optional minima (minimum over a concatenation). -/
def minMerge (o1 o2 : Option Time) : Option Time :=
  match o1 with
  | none => o2
  | some t => some (match o2 with | none => t | some u => min t u)

/-- Canonical (loop-free) form of `compute_execution_metrics` on inputs
where no PR triggers the `ValueError` path. -/
def execCanon (prs : List Item) : ExecutionMetrics :=
  let rc := counterOf (prs.flatMap prReviewerIds)
  let review_total := counterTotal rc
  let tops := most_common rc 2
  { median_merge_days := safe_median (prs.filterMap mergeDur)
    median_first_response_hours := safe_median (prs.filterMap respTime)
    review_top1_pct :=
      if review_total > 0 then ((tops.headD (none, 0)).2 : ℚ) / (review_total : ℚ) * 100 else 0
    review_top2_pct :=
      if review_total > 0 then (((tops.map (fun e => e.2)).sum : ℚ)) / (review_total : ℚ) * 100
      else 0
    total_prs := prs.length
    top_reviewers_by_id := most_common rc 10 }

/-- Canonical (loop-free) form of `compute_community_metrics`. -/
def commCanon (fs : List (Int × Time)) (items : List Item) (ws : Time) : CommunityMetrics :=
  let ids := eventAuthorIds items
  let ac := counterOf ids
  let nw := setOf (ids.filter (isNewAuthor fs ws))
  let rt := setOf (ids.filter (fun u => !isNewAuthor fs ws u))
  let total_actions := counterTotal ac
  let tops := most_common ac 2
  { unique_contributors := ac.length
    new_contributors := nw.length
    returning_contributors := rt.length
    return_rate_pct := if ac.length > 0 then (rt.length : ℚ) / (ac.length : ℚ) * 100 else 0
    author_top1_pct :=
      if total_actions > 0 then ((tops.headD (0, 0)).2 : ℚ) / (total_actions : ℚ) * 100 else 0
    author_top2_pct :=
      if total_actions > 0 && tops.length > 1 then
        (((tops.map (fun e => e.2)).sum : ℚ)) / (total_actions : ℚ) * 100
      else 0
    top_authors_by_id := most_common ac 10 }

/-- An item whose `createdAt` does not parse (the `filter_last_days`
failure trigger). -/
def createdMissing (x : Item) : Bool := (parse_datetime x.createdAt).isNone

/-- The subset a rolling window keeps, on inputs where every item has a
parseable `createdAt`. -/
def windowFilter (items : List Item) (days : Int) (now : Time) : List Item :=
  items.filter (fun x => decide (now - days * 86400 ≤ (parse_datetime x.createdAt).getD 0))

/-- Canonical form of one rolling-window entry on inputs where
`windowFor` succeeds. -/
def windowCanon (fs : List (Int × Time)) (prs issues : List Item) (days : Int)
    (now : Time) : WindowMetrics :=
  { execution := execCanon (windowFilter prs days now)
    community := commCanon fs (windowFilter prs days now ++ windowFilter issues days now)
      (now - days * 86400)
    backlog := none }

/-! ### Concrete inputs used by counterexamples and witnesses -/

/-- A day, in seconds. -/
def daySec : Int := 86400

/-- An open PR with no reviews or comments, created at the given instant. -/
def plainPr (num : Int) (created : Time) : Item :=
  { number := num, state := "OPEN", createdAt := some created, mergedAt := none,
    author := some { login := "alice", id := some 7 }, reviews := [], comments := [] }

/-- An open issue authored by a second contributor. -/
def plainIssue (num : Int) (created : Time) : Item :=
  { number := num, state := "OPEN", createdAt := some created, mergedAt := none,
    author := some { login := "bob", id := some 8 }, reviews := [], comments := [] }

/-- An item lacking a `createdAt` value. -/
def bareItem : Item :=
  { number := 99, state := "OPEN", createdAt := none, mergedAt := none,
    author := none, reviews := [], comments := [] }

end RepoHealth

/-! ## Lemmas -/

namespace RepoHealth

instance : IsAntisymm Nat (fun x y => y ≤ x) :=
  ⟨fun a b h1 h2 => Nat.le_antisymm h2 h1⟩

theorem insertOrdered_perm (le : α → α → Bool) (a : α) (l : List α) :
    List.Perm (insertOrdered le a l) (a :: l) := by
  induction l with
  | nil => simp [insertOrdered]
  | cons b bs ih =>
    simp only [insertOrdered]
    by_cases h : le b a = true
    · rw [if_pos h]
      exact (ih.cons b).trans (List.Perm.swap a b bs)
    · rw [if_neg h]

theorem foldl_insertOrdered_perm (le : α → α → Bool) (l acc : List α) :
    List.Perm (l.foldl (fun ac x => insertOrdered le x ac) acc) (acc ++ l) := by
  induction l generalizing acc with
  | nil => simp
  | cons x xs ih =>
    have h1 := ih (insertOrdered le x acc)
    have h2 : List.Perm (insertOrdered le x acc ++ xs) ((x :: acc) ++ xs) :=
      (insertOrdered_perm le x acc).append_right xs
    have h3 : List.Perm ((x :: acc) ++ xs) (acc ++ x :: xs) := List.perm_middle.symm
    exact (h1.trans h2).trans h3

theorem pysort_perm (le : α → α → Bool) (l : List α) : List.Perm (pysort le l) l :=
  (foldl_insertOrdered_perm le l []).trans (by simp)

theorem insertOrdered_pairwise (le : α → α → Bool)
    (htot : ∀ a b, le a b = true ∨ le b a = true)
    (htrans : ∀ a b c, le a b = true → le b c = true → le a c = true)
    (a : α) (l : List α) (h : l.Pairwise (fun x y => le x y = true)) :
    (insertOrdered le a l).Pairwise (fun x y => le x y = true) := by
  induction l with
  | nil => simp [insertOrdered]
  | cons b bs ih =>
    rw [List.pairwise_cons] at h
    simp only [insertOrdered]
    by_cases h1 : le b a = true
    · rw [if_pos h1]
      rw [List.pairwise_cons]
      refine ⟨fun c hc => ?_, ih h.2⟩
      rcases List.mem_cons.mp ((insertOrdered_perm le a bs).mem_iff.mp hc) with hc2 | hc2
      · subst hc2; exact h1
      · exact h.1 c hc2
    · rw [if_neg h1]
      rw [List.pairwise_cons]
      have hab : le a b = true := (htot a b).resolve_right h1
      refine ⟨fun c hc => ?_, List.pairwise_cons.mpr h⟩
      rcases List.mem_cons.mp hc with hc2 | hc2
      · subst hc2; exact hab
      · exact htrans a b c hab (h.1 c hc2)

theorem pysort_pairwise (le : α → α → Bool)
    (htot : ∀ a b, le a b = true ∨ le b a = true)
    (htrans : ∀ a b c, le a b = true → le b c = true → le a c = true)
    (l : List α) : (pysort le l).Pairwise (fun x y => le x y = true) := by
  suffices h : ∀ acc, acc.Pairwise (fun x y => le x y = true) →
      (l.foldl (fun ac x => insertOrdered le x ac) acc).Pairwise (fun x y => le x y = true) by
    exact h [] List.Pairwise.nil
  induction l with
  | nil => intro acc hacc; exact hacc
  | cons x xs ih =>
    intro acc hacc
    exact ih _ (insertOrdered_pairwise le htot htrans x acc hacc)

theorem qle_total : ∀ a b : ℚ, qle a b = true ∨ qle b a = true := by
  intro a b
  simp only [qle, decide_eq_true_eq]
  exact le_total a b

theorem qle_trans : ∀ a b c : ℚ, qle a b = true → qle b c = true → qle a c = true := by
  intro a b c
  simp only [qle, decide_eq_true_eq]
  exact le_trans

theorem pysort_qle_sorted (l : List ℚ) : (pysort qle l).Sorted (fun a b : ℚ => a ≤ b) := by
  have := pysort_pairwise qle qle_total qle_trans l
  exact this.imp (by simp [qle])

theorem pysort_qle_congr {l₁ l₂ : List ℚ} (h : List.Perm l₁ l₂) :
    pysort qle l₁ = pysort qle l₂ := by
  refine List.eq_of_perm_of_sorted ?_ (pysort_qle_sorted l₁) (pysort_qle_sorted l₂)
  exact ((pysort_perm qle l₁).trans h).trans (pysort_perm qle l₂).symm

theorem safe_median_perm {l₁ l₂ : List ℚ} (h : List.Perm l₁ l₂) :
    safe_median l₁ = safe_median l₂ := by
  simp only [safe_median, pysort_qle_congr h]

theorem countDescLE_total {K : Type} : ∀ a b : K × Nat,
    countDescLE a b = true ∨ countDescLE b a = true := by
  intro a b
  simp only [countDescLE, decide_eq_true_eq]
  exact le_total b.2 a.2

theorem countDescLE_trans {K : Type} : ∀ a b c : K × Nat,
    countDescLE a b = true → countDescLE b c = true → countDescLE a c = true := by
  intro a b c
  simp only [countDescLE, decide_eq_true_eq]
  intro h1 h2
  exact le_trans h2 h1

theorem sortedCounts_perm {K : Type} {c₁ c₂ : List (K × Nat)} (h : List.Perm c₁ c₂) :
    sortedCounts c₁ = sortedCounts c₂ := by
  have s1 : (sortedCounts c₁).Pairwise (fun x y : Nat => y ≤ x) := by
    have := pysort_pairwise countDescLE countDescLE_total countDescLE_trans c₁
    exact List.pairwise_map.mpr (this.imp (by simp [countDescLE]))
  have s2 : (sortedCounts c₂).Pairwise (fun x y : Nat => y ≤ x) := by
    have := pysort_pairwise countDescLE countDescLE_total countDescLE_trans c₂
    exact List.pairwise_map.mpr (this.imp (by simp [countDescLE]))
  refine List.eq_of_perm_of_sorted ?_ s1 s2
  exact ((pysort_perm countDescLE c₁).map _).trans
    ((h.map _).trans ((pysort_perm countDescLE c₂).map _).symm)

/-! ### Counter lemmas -/

theorem counterAdd_lookup {K : Type} [DecidableEq K] (c : List (K × Nat)) (k k' : K) :
    lookupCount (counterAdd c k) k' =
      if k' = k then lookupCount c k' + 1 else lookupCount c k' := by
  induction c with
  | nil =>
    by_cases h : k' = k
    · have hb : (k' == k) = true := beq_iff_eq.mpr h
      simp [counterAdd, lookupCount, List.lookup_cons, hb, h]
    · have hb : (k' == k) = false := beq_false_of_ne h
      simp [counterAdd, lookupCount, List.lookup_cons, hb, h]
  | cons e rest ih =>
    obtain ⟨k0, n⟩ := e
    simp only [counterAdd]
    by_cases h0 : k0 = k
    · rw [if_pos h0]
      by_cases h : k' = k0
      · have hb : (k' == k0) = true := beq_iff_eq.mpr h
        have hk : k' = k := h.trans h0
        have hb2 : (k == k0) = true := beq_iff_eq.mpr h0.symm
        simp [lookupCount, List.lookup_cons, hb, hk, hb2]
      · have hb : (k' == k0) = false := beq_false_of_ne h
        have hk : ¬k' = k := fun hc => h (hc.trans h0.symm)
        simp [lookupCount, List.lookup_cons, hb, hk]
    · rw [if_neg h0]
      by_cases h : k' = k0
      · have hb : (k' == k0) = true := beq_iff_eq.mpr h
        have hk : ¬k' = k := fun hc => h0 (h.symm.trans hc)
        simp [lookupCount, List.lookup_cons, hb, hk]
      · have hb : (k' == k0) = false := beq_false_of_ne h
        simp only [lookupCount, List.lookup_cons, hb] at ih ⊢
        exact ih

theorem counterAdd_total {K : Type} [DecidableEq K] (c : List (K × Nat)) (k : K) :
    counterTotal (counterAdd c k) = counterTotal c + 1 := by
  induction c with
  | nil => simp [counterAdd, counterTotal]
  | cons e rest ih =>
    obtain ⟨k0, n⟩ := e
    simp only [counterAdd]
    by_cases h0 : k0 = k
    · subst h0
      simp [counterTotal]
      omega
    · rw [if_neg h0]
      simp only [counterTotal, List.map_cons, List.sum_cons] at ih ⊢
      omega

theorem counterAdd_keys_mem {K : Type} [DecidableEq K] (c : List (K × Nat)) (k k' : K) :
    k' ∈ counterKeys (counterAdd c k) ↔ k' ∈ counterKeys c ∨ k' = k := by
  induction c with
  | nil => simp [counterAdd, counterKeys]
  | cons e rest ih =>
    obtain ⟨k0, n⟩ := e
    simp only [counterAdd]
    by_cases h0 : k0 = k
    · rw [if_pos h0]
      simp only [counterKeys, List.map_cons, List.mem_cons]
      constructor
      · intro hx
        rcases hx with hx | hx
        · exact Or.inl (Or.inl hx)
        · exact Or.inl (Or.inr hx)
      · intro hx
        rcases hx with (hx | hx) | hx
        · exact Or.inl hx
        · exact Or.inr hx
        · exact Or.inl (hx.trans h0.symm)
    · rw [if_neg h0]
      simp only [counterKeys, List.map_cons, List.mem_cons] at ih ⊢
      rw [ih]
      tauto

theorem counterAdd_keys_nodup {K : Type} [DecidableEq K] (c : List (K × Nat)) (k : K)
    (h : (counterKeys c).Nodup) : (counterKeys (counterAdd c k)).Nodup := by
  induction c with
  | nil => simp [counterAdd, counterKeys]
  | cons e rest ih =>
    obtain ⟨k0, n⟩ := e
    simp only [counterKeys, List.map_cons, List.nodup_cons] at h
    simp only [counterAdd]
    by_cases h0 : k0 = k
    · rw [if_pos h0]
      simp only [counterKeys, List.map_cons, List.nodup_cons]
      exact ⟨h.1, h.2⟩
    · rw [if_neg h0]
      simp only [counterKeys, List.map_cons, List.nodup_cons]
      refine ⟨fun hc => ?_, ih h.2⟩
      have hmm : k0 ∈ counterKeys (counterAdd rest k) := hc
      rcases (counterAdd_keys_mem rest k k0).mp hmm with hc2 | hc2
      · exact h.1 hc2
      · exact h0 hc2

theorem counterAdd_pos {K : Type} [DecidableEq K] (c : List (K × Nat)) (k : K)
    (h : ∀ e ∈ c, 1 ≤ e.2) : ∀ e ∈ counterAdd c k, 1 ≤ e.2 := by
  induction c with
  | nil =>
    intro e he
    simp [counterAdd] at he
    simp [he]
  | cons e0 rest ih =>
    obtain ⟨k0, n⟩ := e0
    intro e he
    simp only [counterAdd] at he
    by_cases h0 : k0 = k
    · subst h0
      rw [if_pos rfl] at he
      rcases List.mem_cons.mp he with he | he
      · subst he; omega
      · exact h e (List.mem_cons_of_mem _ he)
    · rw [if_neg h0] at he
      rcases List.mem_cons.mp he with he | he
      · subst he; exact h (k0, n) (List.mem_cons_self _ _)
      · exact ih (fun e' he' => h e' (List.mem_cons_of_mem _ he')) e he

theorem foldl_counterAdd_lookup {K : Type} [DecidableEq K] (ids : List K)
    (c : List (K × Nat)) (k : K) :
    lookupCount (ids.foldl counterAdd c) k = lookupCount c k + ids.count k := by
  induction ids generalizing c with
  | nil => simp
  | cons i rest ih =>
    simp only [List.foldl_cons]
    rw [ih, counterAdd_lookup]
    by_cases h : k = i
    · subst h
      rw [if_pos rfl, List.count_cons_self]
      omega
    · rw [if_neg h, List.count_cons_of_ne h]

theorem foldl_counterAdd_total {K : Type} [DecidableEq K] (ids : List K) (c : List (K × Nat)) :
    counterTotal (ids.foldl counterAdd c) = counterTotal c + ids.length := by
  induction ids generalizing c with
  | nil => simp
  | cons i rest ih =>
    simp only [List.foldl_cons]
    rw [ih, counterAdd_total, List.length_cons]
    omega

theorem foldl_counterAdd_keys_mem {K : Type} [DecidableEq K] (ids : List K)
    (c : List (K × Nat)) (k : K) :
    k ∈ counterKeys (ids.foldl counterAdd c) ↔ k ∈ counterKeys c ∨ k ∈ ids := by
  induction ids generalizing c with
  | nil => simp
  | cons i rest ih =>
    simp only [List.foldl_cons]
    rw [ih, counterAdd_keys_mem]
    simp only [List.mem_cons]
    tauto

theorem foldl_counterAdd_keys_nodup {K : Type} [DecidableEq K] (ids : List K)
    (c : List (K × Nat)) (h : (counterKeys c).Nodup) :
    (counterKeys (ids.foldl counterAdd c)).Nodup := by
  induction ids generalizing c with
  | nil => exact h
  | cons i rest ih =>
    simp only [List.foldl_cons]
    exact ih _ (counterAdd_keys_nodup c i h)

theorem foldl_counterAdd_pos {K : Type} [DecidableEq K] (ids : List K)
    (c : List (K × Nat)) (h : ∀ e ∈ c, 1 ≤ e.2) :
    ∀ e ∈ ids.foldl counterAdd c, 1 ≤ e.2 := by
  induction ids generalizing c with
  | nil => exact h
  | cons i rest ih =>
    simp only [List.foldl_cons]
    exact ih _ (counterAdd_pos c i h)

theorem mem_of_lookup_some {K V : Type} [DecidableEq K] {c : List (K × V)} {k : K} {v : V}
    (h : c.lookup k = some v) : (k, v) ∈ c := by
  induction c with
  | nil => simp [List.lookup] at h
  | cons e rest ih =>
    obtain ⟨k0, v0⟩ := e
    by_cases he : k = k0
    · subst he
      simp [List.lookup] at h
      simp [h]
    · have hbeq : (k == k0) = false := beq_false_of_ne he
      simp only [List.lookup_cons, hbeq] at h
      exact List.mem_cons_of_mem _ (ih h)

theorem lookup_append_middle {K V : Type} [DecidableEq K] (pre post : List (K × V))
    (k0 : K) (v0 : V) {k : K} (hk : k ≠ k0) :
    (pre ++ (k0, v0) :: post).lookup k = (pre ++ post).lookup k := by
  induction pre with
  | nil =>
    have hbeq : (k == k0) = false := beq_false_of_ne hk
    simp [List.lookup_cons, hbeq]
  | cons p ps ihp =>
    obtain ⟨kp, vp⟩ := p
    by_cases hkp : k = kp
    · subst hkp
      simp [List.lookup_cons]
    · have hbkp : (k == kp) = false := beq_false_of_ne hkp
      simp only [List.cons_append, List.lookup_cons, hbkp]
      exact ihp

theorem lookup_eq_of_mem_nodup {K V : Type} [DecidableEq K] {c : List (K × V)} {k : K} {v : V}
    (hnd : (counterKeys c).Nodup) (hm : (k, v) ∈ c) : c.lookup k = some v := by
  induction c with
  | nil => simp at hm
  | cons e rest ih =>
    obtain ⟨k0, v0⟩ := e
    simp only [counterKeys, List.map_cons, List.nodup_cons] at hnd
    rcases List.mem_cons.mp hm with hm2 | hm2
    · injection hm2 with hm3 hm4
      subst hm3
      subst hm4
      simp [List.lookup_cons]
    · have hk : k ≠ k0 := by
        intro hkk
        subst hkk
        exact hnd.1 (List.mem_map.mpr ⟨(k, v), hm2, rfl⟩)
      have hbeq : (k == k0) = false := beq_false_of_ne hk
      simp only [List.lookup_cons, hbeq]
      exact ih hnd.2 hm2

theorem assoc_perm_of_lookup_eq {K V : Type} [DecidableEq K] {c₁ c₂ : List (K × V)}
    (h1 : (counterKeys c₁).Nodup) (h2 : (counterKeys c₂).Nodup)
    (hl : ∀ k, c₁.lookup k = c₂.lookup k) : List.Perm c₁ c₂ := by
  induction c₁ generalizing c₂ with
  | nil =>
    cases c₂ with
    | nil => exact List.Perm.refl _
    | cons e rest =>
      obtain ⟨k0, v0⟩ := e
      have := hl k0
      simp [List.lookup_cons] at this
  | cons e rest ih =>
    obtain ⟨k0, v0⟩ := e
    have hk0 : c₂.lookup k0 = some v0 := by
      rw [← hl k0]
      simp [List.lookup_cons]
    have hmem : (k0, v0) ∈ c₂ := mem_of_lookup_some hk0
    obtain ⟨pre, post, rfl⟩ := List.append_of_mem hmem
    simp only [counterKeys, List.map_cons, List.nodup_cons] at h1
    have h2' : (counterKeys (pre ++ post)).Nodup ∧ k0 ∉ counterKeys (pre ++ post) := by
      simp only [counterKeys, List.map_append, List.map_cons] at h2 ⊢
      rw [List.nodup_append] at h2 ⊢
      obtain ⟨ha, hb, hc⟩ := h2
      rw [List.nodup_cons] at hb
      constructor
      · exact ⟨ha, hb.2, fun _ haa hbb => hc haa (List.mem_cons_of_mem _ hbb)⟩
      · intro hk
        rw [List.mem_append] at hk
        rcases hk with hk | hk
        · exact hc hk (List.mem_cons_self _ _)
        · exact hb.1 hk
    have hrest : List.Perm rest (pre ++ post) := by
      refine ih h1.2 h2'.1 (fun k => ?_)
      by_cases hk : k = k0
      · subst hk
        have hr : rest.lookup k = none := by
          cases hr : rest.lookup k with
          | none => rfl
          | some v =>
            exact absurd (List.mem_map.mpr ⟨(k, v), mem_of_lookup_some hr, rfl⟩) h1.1
        have hp : (pre ++ post).lookup k = none := by
          cases hp : (pre ++ post).lookup k with
          | none => rfl
          | some v =>
            exact absurd (List.mem_map.mpr ⟨(k, v), mem_of_lookup_some hp, rfl⟩) h2'.2
        rw [hr, hp]
      · have hbeq : (k == k0) = false := beq_false_of_ne hk
        have e1 : ((k0, v0) :: rest).lookup k = rest.lookup k := by
          simp [List.lookup_cons, hbeq]
        have e2 : (pre ++ (k0, v0) :: post).lookup k = (pre ++ post).lookup k :=
          lookup_append_middle pre post k0 v0 hk
        rw [← e1, hl k, e2]
    exact (hrest.cons (k0, v0)).trans List.perm_middle.symm

/-! ### Minimum lemmas -/

theorem listMin_eq_minFoldStep (a : Time) (l : List Time) :
    some (listMin a l) = minFoldStep a (minFold l) := by
  induction l generalizing a with
  | nil => simp [listMin, minFold, minFoldStep]
  | cons b bs ih =>
    have lhs : listMin a (b :: bs) = listMin (min a b) bs := by
      simp [listMin]
    rw [lhs, ih (min a b)]
    show minFoldStep (min a b) (minFold bs) = minFoldStep a (minFold (b :: bs))
    have hstep : minFold (b :: bs) = minFoldStep b (minFold bs) := rfl
    rw [hstep]
    cases minFold bs with
    | none => simp [minFoldStep]
    | some c => simp [minFoldStep, min_assoc]

theorem minOption_eq_minFold (l : List Time) : minOption l = minFold l := by
  cases l with
  | nil => rfl
  | cons a bs =>
    show some (listMin a bs) = minFold (a :: bs)
    rw [listMin_eq_minFoldStep]
    rfl

theorem minFold_perm {l₁ l₂ : List Time} (h : List.Perm l₁ l₂) : minFold l₁ = minFold l₂ := by
  induction h with
  | nil => rfl
  | cons x _ ih =>
    show minFoldStep x (minFold _) = minFoldStep x (minFold _)
    rw [ih]
  | swap x y l =>
    show minFoldStep y (minFoldStep x (minFold l)) = minFoldStep x (minFoldStep y (minFold l))
    cases minFold l with
    | none => simp [minFoldStep, min_comm]
    | some c => simp only [minFoldStep]; rw [min_left_comm]
  | trans _ _ ih1 ih2 => rw [ih1, ih2]

theorem minOption_perm {l₁ l₂ : List Time} (h : List.Perm l₁ l₂) :
    minOption l₁ = minOption l₂ := by
  rw [minOption_eq_minFold, minOption_eq_minFold]
  exact minFold_perm h

theorem minFold_append (l₁ l₂ : List Time) :
    minFold (l₁ ++ l₂) = minMerge (minFold l₁) (minFold l₂) := by
  induction l₁ with
  | nil => rfl
  | cons a rest ih =>
    show minFoldStep a (minFold (rest ++ l₂)) = minMerge (minFoldStep a (minFold rest)) (minFold l₂)
    rw [ih]
    cases minFold rest with
    | none =>
      cases minFold l₂ with
      | none => simp [minFoldStep, minMerge]
      | some c => simp [minFoldStep, minMerge]
    | some b =>
      cases minFold l₂ with
      | none => simp [minFoldStep, minMerge]
      | some c => simp [minFoldStep, minMerge, min_assoc]

theorem listMin_of_le (t : Time) (ts : List Time) (h : ∀ x ∈ ts, t ≤ x) :
    listMin t ts = t := by
  induction ts generalizing t with
  | nil => rfl
  | cons b bs ih =>
    have hstep : listMin t (b :: bs) = listMin (min t b) bs := by simp [listMin]
    rw [hstep]
    have htb : min t b = t := min_eq_left (h b (List.mem_cons_self _ _))
    rw [htb]
    exact ih t (fun x hx => h x (List.mem_cons_of_mem _ hx))

theorem minOption_of_sorted {t : Time} {ts : List Time}
    (h : (t :: ts).Pairwise (fun a b : Time => a ≤ b)) : minOption (t :: ts) = some t := by
  have hc := List.pairwise_cons.mp h
  show some (listMin t ts) = some t
  rw [listMin_of_le t ts hc.1]

theorem head?_eq_minOption {ts : List Time}
    (h : ts.Pairwise (fun a b : Time => a ≤ b)) : ts.head? = minOption ts := by
  cases ts with
  | nil => rfl
  | cons t rest => exact (minOption_of_sorted h).symm

/-! ### First-seen characterization -/

theorem lookup_append {K V : Type} [BEq K] (l₁ l₂ : List (K × V)) (k : K) :
    (l₁ ++ l₂).lookup k = (l₁.lookup k).or (l₂.lookup k) := by
  induction l₁ with
  | nil => simp [List.lookup]
  | cons e rest ih =>
    obtain ⟨k0, v0⟩ := e
    cases hb : k == k0 with
    | true => simp [List.lookup_cons, hb]
    | false => simp [List.lookup_cons, hb, ih]

theorem lookup_none_not_mem_keys {K V : Type} [DecidableEq K] {c : List (K × V)} {k : K}
    (h : c.lookup k = none) : k ∉ counterKeys c := by
  intro hm
  obtain ⟨e, he, hk⟩ := List.mem_map.mp hm
  obtain ⟨k0, v0⟩ := e
  subst hk
  obtain ⟨pre, post, rfl⟩ := List.append_of_mem he
  rw [lookup_append] at h
  cases hpre : List.lookup k0 pre with
  | some v => rw [hpre] at h; simp [Option.or] at h
  | none =>
    rw [hpre] at h
    simp only [Option.or] at h
    simp [List.lookup_cons] at h

theorem firstSeenScan_lookup (s : List Item) (acc : List (Int × Time)) (u : Int) :
    (firstSeenScan s acc).lookup u =
      (acc.lookup u).or ((s.filterMap (eligCreated u)).head?) := by
  induction s generalizing acc with
  | nil => simp [firstSeenScan]
  | cons x rest ih =>
    cases hA : countedAuthorId x with
    | none =>
      have hscan : firstSeenScan (x :: rest) acc = firstSeenScan rest acc := by
        simp [firstSeenScan, hA]
      have helig : eligCreated u x = none := by simp [eligCreated, hA]
      rw [hscan, ih, List.filterMap_cons, helig]
    | some u0 =>
      cases hC : parse_datetime x.createdAt with
      | none =>
        have hscan : firstSeenScan (x :: rest) acc = firstSeenScan rest acc := by
          simp [firstSeenScan, hA, hC]
        have helig : eligCreated u x = none := by simp [eligCreated, hA, hC]
        rw [hscan, ih, List.filterMap_cons, helig]
      | some c =>
        by_cases hin : (acc.lookup u0).isSome
        · have hscan : firstSeenScan (x :: rest) acc = firstSeenScan rest acc := by
            simp [firstSeenScan, hA, hC, hin]
          rw [hscan, ih, List.filterMap_cons]
          by_cases hu : u0 = u
          · subst hu
            have helig : eligCreated u0 x = some c := by simp [eligCreated, hA, hC]
            rw [helig]
            obtain ⟨v, hv⟩ := Option.isSome_iff_exists.mp hin
            rw [hv]
            rfl
          · have helig : eligCreated u x = none := by
              simp [eligCreated, hA, hC]
              intro hc
              exact absurd hc hu
            rw [helig]
        · have hscan : firstSeenScan (x :: rest) acc = firstSeenScan rest (acc ++ [(u0, c)]) := by
            simp [firstSeenScan, hA, hC, hin]
          rw [hscan, ih, List.filterMap_cons]
          have haccn : acc.lookup u0 = none := Option.not_isSome_iff_eq_none.mp hin
          by_cases hu : u0 = u
          · subst hu
            have helig : eligCreated u0 x = some c := by simp [eligCreated, hA, hC]
            rw [helig, lookup_append, haccn]
            have : (List.lookup u0 [(u0, c)] : Option Time) = some c := by
              simp [List.lookup_cons]
            rw [this]
            rfl
          · have helig : eligCreated u x = none := by
              simp [eligCreated, hA, hC]
              intro hc
              exact absurd hc hu
            rw [helig, lookup_append]
            have : (List.lookup u [(u0, c)] : Option Time) = none := by
              have hb : (u == u0) = false := beq_false_of_ne (fun hc => hu hc.symm)
              simp [List.lookup_cons, hb]
            rw [this, Option.or_none]

theorem keyLE_total : ∀ a b : Item, keyLE a b = true ∨ keyLE b a = true := by
  intro a b
  simp only [keyLE]
  cases itemKey a with
  | none => cases itemKey b with
    | none => simp
    | some y => simp
  | some x =>
    cases itemKey b with
    | none => simp
    | some y =>
      simp only [decide_eq_true_eq]
      exact le_total x y

theorem keyLE_trans : ∀ a b c : Item, keyLE a b = true → keyLE b c = true → keyLE a c = true := by
  intro a b c
  simp only [keyLE]
  cases itemKey a with
  | none =>
    cases itemKey b with
    | none => cases itemKey c <;> simp
    | some y => cases itemKey c <;> simp
  | some x =>
    cases itemKey b with
    | none =>
      cases itemKey c with
      | none => simp
      | some z => simp
    | some y =>
      cases itemKey c with
      | none => simp
      | some z =>
        simp only [decide_eq_true_eq]
        exact le_trans

theorem eligCreated_key {u : Int} {x : Item} {t : Time} (h : eligCreated u x = some t) :
    itemKey x = some t := by
  unfold eligCreated at h
  cases hA : countedAuthorId x <;> rw [hA] at h
  · exact absurd h (by simp)
  case some v =>
    cases hC : parse_datetime x.createdAt <;> rw [hC] at h
    · exact absurd h (by simp)
    case some c =>
      have h2 : (if v = u then some c else none) = some t := h
      by_cases hv : v = u
      · rw [if_pos hv] at h2
        injection h2 with h3
        subst h3
        show parse_datetime x.createdAt = some c
        exact hC
      · rw [if_neg hv] at h2
        exact absurd h2 (by simp)

theorem filterMap_elig_sorted (items : List Item) (u : Int) :
    ((pysort keyLE items).filterMap (eligCreated u)).Pairwise (fun a b : Time => a ≤ b) := by
  rw [List.pairwise_filterMap]
  refine (pysort_pairwise keyLE keyLE_total keyLE_trans items).imp ?_
  intro a b hab t ht t' ht'
  have ha := eligCreated_key ht
  have hb := eligCreated_key ht'
  simp only [keyLE, ha, hb, decide_eq_true_eq] at hab
  exact hab

theorem build_first_seen_lookup (items : List Item) (u : Int) :
    (build_first_seen_map items).lookup u = minOption (items.filterMap (eligCreated u)) := by
  show (firstSeenScan (pysort keyLE items) []).lookup u = _
  rw [firstSeenScan_lookup]
  have h0 : (List.lookup u ([] : List (Int × Time))) = none := rfl
  rw [h0]
  have hs : ((pysort keyLE items).filterMap (eligCreated u)).head? =
      minOption ((pysort keyLE items).filterMap (eligCreated u)) :=
    head?_eq_minOption (filterMap_elig_sorted items u)
  have hp : minOption ((pysort keyLE items).filterMap (eligCreated u)) =
      minOption (items.filterMap (eligCreated u)) :=
    minOption_perm ((pysort_perm keyLE items).filterMap _)
  rw [hs, hp]
  cases minOption (items.filterMap (eligCreated u)) <;> rfl

theorem firstSeenScan_keys_nodup (s : List Item) (acc : List (Int × Time))
    (h : (counterKeys acc).Nodup) : (counterKeys (firstSeenScan s acc)).Nodup := by
  induction s generalizing acc with
  | nil => exact h
  | cons x rest ih =>
    cases hA : countedAuthorId x with
    | none =>
      have hscan : firstSeenScan (x :: rest) acc = firstSeenScan rest acc := by
        simp [firstSeenScan, hA]
      rw [hscan]; exact ih acc h
    | some u0 =>
      cases hC : parse_datetime x.createdAt with
      | none =>
        have hscan : firstSeenScan (x :: rest) acc = firstSeenScan rest acc := by
          simp [firstSeenScan, hA, hC]
        rw [hscan]; exact ih acc h
      | some c =>
        by_cases hin : (acc.lookup u0).isSome
        · have hscan : firstSeenScan (x :: rest) acc = firstSeenScan rest acc := by
            simp [firstSeenScan, hA, hC, hin]
          rw [hscan]; exact ih acc h
        · have hscan : firstSeenScan (x :: rest) acc =
              firstSeenScan rest (acc ++ [(u0, c)]) := by
            simp [firstSeenScan, hA, hC, hin]
          rw [hscan]
          refine ih _ ?_
          have haccn : acc.lookup u0 = none := Option.not_isSome_iff_eq_none.mp hin
          have hnm : u0 ∉ counterKeys acc := lookup_none_not_mem_keys haccn
          simp only [counterKeys, List.map_append, List.map_cons, List.map_nil]
          rw [List.nodup_append]
          exact ⟨h, List.nodup_singleton u0,
            by
              intro a haa hbb
              simp at hbb
              subst hbb
              exact hnm haa⟩

theorem build_first_seen_keys_nodup (items : List Item) :
    (counterKeys (build_first_seen_map items)).Nodup :=
  firstSeenScan_keys_nodup _ [] (by simp [counterKeys])

/-! ### Execution-metrics characterization -/

theorem execLoop_characterize (prs : List Item) (md fr : List ℚ)
    (rc : List (Option Int × Nat)) :
    execLoop prs md fr rc =
      if prs.any execBad then Except.error "ValueError"
      else Except.ok (md ++ prs.filterMap mergeDur, fr ++ prs.filterMap respTime,
        (prs.flatMap prReviewerIds).foldl counterAdd rc) := by
  induction prs generalizing md fr rc with
  | nil => simp [execLoop]
  | cons pr rest ih =>
    have hev : commentResponseEvents (authorIdOf pr) pr.comments ++
        reviewResponseEvents (authorIdOf pr) pr.reviews = prResponseEvents pr := rfl
    have hrc : reviewerIdsOf (authorIdOf pr) pr.reviews = prReviewerIds pr := rfl
    simp only [execLoop, hev, hrc]
    cases hC : parse_datetime pr.createdAt with
    | none =>
      have hbad : execBad pr = false := by simp [execBad, hC]
      have hresp : respTime pr = none := by simp [respTime, hC]
      cases hM : parse_datetime pr.mergedAt with
      | none =>
        have hmd : mergeDur pr = none := by simp [mergeDur, hC, hM]
        simp [List.any_cons, hbad, List.filterMap_cons, hmd, hresp, List.flatMap_cons,
          List.foldl_append, ih]
      | some m =>
        have hmd : mergeDur pr = none := by simp [mergeDur, hC, hM]
        simp [List.any_cons, hbad, List.filterMap_cons, hmd, hresp, List.flatMap_cons,
          List.foldl_append, ih]
    | some c =>
      cases hE : (prResponseEvents pr).isEmpty with
      | true =>
        have hbad : execBad pr = false := by simp [execBad, hC, hE]
        have hresp : respTime pr = none := by simp [respTime, hC, hE]
        cases hM : parse_datetime pr.mergedAt with
        | none =>
          have hmd : mergeDur pr = none := by simp [mergeDur, hC, hM]
          simp [List.any_cons, hbad, List.filterMap_cons, hmd, hresp, List.flatMap_cons,
            List.foldl_append, ih]
        | some m =>
          have hmd : mergeDur pr = some (((m - c : Int) : ℚ) / 86400) := by
            simp [mergeDur, hC, hM]
          simp [List.any_cons, hbad, List.filterMap_cons, hmd, hresp, List.flatMap_cons,
            List.foldl_append, ih, List.append_assoc]
      | false =>
        cases hF : (prResponseEvents pr).filterMap (fun e => e) with
        | nil =>
          have hbad : execBad pr = true := by simp [execBad, hC, hE, hF]
          have hany : (pr :: rest).any execBad = true := by
            simp [List.any_cons, hbad]
          rw [hany]
          cases hM : parse_datetime pr.mergedAt <;> simp [hF]
        | cons t ts =>
          have hbad : execBad pr = false := by simp [execBad, hC, hE, hF]
          have hresp : respTime pr = some (((listMin t ts - c : Int) : ℚ) / 3600) := by
            simp [respTime, hC, hE, hF]
          cases hM : parse_datetime pr.mergedAt with
          | none =>
            have hmd : mergeDur pr = none := by simp [mergeDur, hC, hM]
            simp [List.any_cons, hbad, List.filterMap_cons, hmd, hresp, List.flatMap_cons,
              List.foldl_append, ih, hF, List.append_assoc]
          | some m =>
            have hmd : mergeDur pr = some (((m - c : Int) : ℚ) / 86400) := by
              simp [mergeDur, hC, hM]
            simp [List.any_cons, hbad, List.filterMap_cons, hmd, hresp, List.flatMap_cons,
              List.foldl_append, ih, hF, List.append_assoc]

theorem compute_execution_metrics_ok {prs : List Item}
    (h : ∀ pr ∈ prs, execBad pr = false) :
    compute_execution_metrics prs = Except.ok (execCanon prs) := by
  have hany : prs.any execBad = false := List.any_eq_false.mpr (by
    intro x hx
    rw [h x hx]
    simp)
  show execLoop prs [] [] [] >>= _ = _
  rw [execLoop_characterize, hany]
  simp only [Bool.false_eq_true, if_false, List.nil_append]
  rfl

theorem compute_execution_metrics_err {prs : List Item}
    (h : prs.any execBad = true) :
    compute_execution_metrics prs = Except.error "ValueError" := by
  show execLoop prs [] [] [] >>= _ = _
  rw [execLoop_characterize, h]
  rfl

theorem most_common_headD_snd {K : Type} (rc : List (K × Nat)) (dk : K) :
    ((most_common rc 2).headD (dk, 0)).2 = (sortedCounts rc).headD 0 := by
  unfold most_common sortedCounts
  cases pysort countDescLE rc with
  | nil => rfl
  | cons e l => rfl

theorem most_common_sum_cast {K : Type} (rc : List (K × Nat)) :
    ((most_common rc 2).map (fun e => (e.2 : ℚ))).sum =
      (((sortedCounts rc).take 2).map (Nat.cast : Nat → ℚ)).sum := by
  unfold most_common sortedCounts
  rw [← List.map_take, List.map_map]
  rfl

theorem counterOf_total {K : Type} [DecidableEq K] (ids : List K) :
    counterTotal (counterOf ids) = ids.length := by
  unfold counterOf
  rw [foldl_counterAdd_total]
  simp [counterTotal]

theorem counterOf_lookup {K : Type} [DecidableEq K] (ids : List K) (k : K) :
    (counterOf ids).lookup k = if ids.count k = 0 then none else some (ids.count k) := by
  cases hv : (counterOf ids).lookup k with
  | none =>
    have hk : k ∉ counterKeys (counterOf ids) := lookup_none_not_mem_keys hv
    have hnm : k ∉ ids := fun hm =>
      hk ((foldl_counterAdd_keys_mem ids [] k).mpr (Or.inr hm))
    have hc : ids.count k = 0 := List.count_eq_zero.mpr hnm
    rw [hc]
    simp
  | some v =>
    have hlc : lookupCount (counterOf ids) k = v := by simp [lookupCount, hv]
    have hcount : lookupCount (counterOf ids) k = lookupCount [] k + ids.count k :=
      foldl_counterAdd_lookup ids [] k
    have h0 : lookupCount ([] : List (K × Nat)) k = 0 := rfl
    have hvpos : 1 ≤ v :=
      foldl_counterAdd_pos ids [] (by simp) (k, v) (mem_of_lookup_some hv)
    have hveq : v = ids.count k := by omega
    have hcne : ¬ids.count k = 0 := by omega
    rw [if_neg hcne, hveq]

theorem counter_perm_of_ids_perm {K : Type} [DecidableEq K] {ids₁ ids₂ : List K}
    (h : List.Perm ids₁ ids₂) : List.Perm (counterOf ids₁) (counterOf ids₂) := by
  refine assoc_perm_of_lookup_eq ?_ ?_ ?_
  · exact foldl_counterAdd_keys_nodup ids₁ [] (by simp [counterKeys])
  · exact foldl_counterAdd_keys_nodup ids₂ [] (by simp [counterKeys])
  · intro k
    rw [counterOf_lookup, counterOf_lookup, h.count_eq]

theorem execCanon_fields_perm {prs₁ prs₂ : List Item} (h : List.Perm prs₁ prs₂) :
    (execCanon prs₁).median_merge_days = (execCanon prs₂).median_merge_days ∧
    (execCanon prs₁).median_first_response_hours =
      (execCanon prs₂).median_first_response_hours ∧
    (execCanon prs₁).review_top1_pct = (execCanon prs₂).review_top1_pct ∧
    (execCanon prs₁).review_top2_pct = (execCanon prs₂).review_top2_pct ∧
    (execCanon prs₁).total_prs = (execCanon prs₂).total_prs := by
  have hids : List.Perm (prs₁.flatMap prReviewerIds) (prs₂.flatMap prReviewerIds) :=
    (h.map prReviewerIds).flatten
  have hcperm := counter_perm_of_ids_perm hids
  have hsc := sortedCounts_perm hcperm
  have htot : counterTotal (counterOf (prs₁.flatMap prReviewerIds)) =
      counterTotal (counterOf (prs₂.flatMap prReviewerIds)) := by
    rw [counterOf_total, counterOf_total, hids.length_eq]
  refine ⟨?_, ?_, ?_, ?_, ?_⟩
  · exact safe_median_perm (h.filterMap mergeDur)
  · exact safe_median_perm (h.filterMap respTime)
  · simp only [execCanon]
    rw [most_common_headD_snd, most_common_headD_snd, hsc, htot]
  · simp only [execCanon]
    rw [most_common_sum_cast, most_common_sum_cast, hsc, htot]
  · simp only [execCanon]
    exact h.length_eq

/-! ### Community-metrics characterization -/

theorem setOf_mem_aux (l acc : List Int) (u : Int) :
    u ∈ l.foldl addSet acc ↔ u ∈ acc ∨ u ∈ l := by
  induction l generalizing acc with
  | nil => simp
  | cons x rest ih =>
    simp only [List.foldl_cons, ih, addSet]
    by_cases hx : x ∈ acc
    · rw [if_pos hx]
      constructor
      · intro hh
        rcases hh with hh | hh
        · exact Or.inl hh
        · exact Or.inr (List.mem_cons_of_mem _ hh)
      · intro hh
        rcases hh with hh | hh
        · exact Or.inl hh
        · rcases List.mem_cons.mp hh with hh | hh
          · exact Or.inl (hh ▸ hx)
          · exact Or.inr hh
    · rw [if_neg hx]
      simp only [List.mem_append, List.mem_singleton, List.mem_cons]
      tauto

theorem setOf_mem (l : List Int) (u : Int) : u ∈ setOf l ↔ u ∈ l := by
  unfold setOf
  rw [setOf_mem_aux]
  simp

theorem setOf_nodup_aux (l acc : List Int) (h : acc.Nodup) : (l.foldl addSet acc).Nodup := by
  induction l generalizing acc with
  | nil => exact h
  | cons x rest ih =>
    simp only [List.foldl_cons]
    refine ih _ ?_
    unfold addSet
    by_cases hx : x ∈ acc
    · rw [if_pos hx]; exact h
    · rw [if_neg hx]
      rw [List.nodup_append]
      exact ⟨h, List.nodup_singleton x, fun _ haa hbb => hx ((List.mem_singleton.mp hbb) ▸ haa)⟩

theorem setOf_nodup (l : List Int) : (setOf l).Nodup := setOf_nodup_aux l [] List.nodup_nil

theorem setOf_perm {l₁ l₂ : List Int} (h : List.Perm l₁ l₂) :
    List.Perm (setOf l₁) (setOf l₂) := by
  rw [List.perm_ext_iff_of_nodup (setOf_nodup l₁) (setOf_nodup l₂)]
  intro a
  rw [setOf_mem, setOf_mem]
  exact h.mem_iff

theorem commLoop_characterize (fs : List (Int × Time)) (ws : Time) (items : List Item)
    (ac : List (Int × Nat)) (nw rt : List Int) :
    commLoop fs ws items ac nw rt =
      ((eventAuthorIds items).foldl counterAdd ac,
       ((eventAuthorIds items).filter (isNewAuthor fs ws)).foldl addSet nw,
       ((eventAuthorIds items).filter (fun u => !isNewAuthor fs ws u)).foldl addSet rt) := by
  induction items generalizing ac nw rt with
  | nil => simp [commLoop, eventAuthorIds]
  | cons x rest ih =>
    cases hA : countedAuthorId x with
    | none =>
      have hids : eventAuthorIds (x :: rest) = eventAuthorIds rest := by
        simp [eventAuthorIds, List.filterMap_cons, hA]
      have hloop : commLoop fs ws (x :: rest) ac nw rt = commLoop fs ws rest ac nw rt := by
        simp [commLoop, hA]
      rw [hloop, hids, ih]
    | some u =>
      cases hC : parse_datetime x.createdAt with
      | none =>
        have hids : eventAuthorIds (x :: rest) = eventAuthorIds rest := by
          simp [eventAuthorIds, List.filterMap_cons, hA, hC]
        have hloop : commLoop fs ws (x :: rest) ac nw rt = commLoop fs ws rest ac nw rt := by
          simp [commLoop, hA, hC]
        rw [hloop, hids, ih]
      | some c =>
        have hids : eventAuthorIds (x :: rest) = u :: eventAuthorIds rest := by
          simp [eventAuthorIds, List.filterMap_cons, hA, hC]
        cases hN : isNewAuthor fs ws u with
        | true =>
          have hloop : commLoop fs ws (x :: rest) ac nw rt =
              commLoop fs ws rest (counterAdd ac u) (addSet nw u) rt := by
            unfold isNewAuthor at hN
            cases hL : fs.lookup u with
            | none => rw [hL] at hN; simp at hN
            | some t =>
              rw [hL] at hN
              have hle : ws ≤ t := of_decide_eq_true hN
              simp [commLoop, hA, hC, hL, hle]
          rw [hloop, hids, ih]
          simp [List.filter_cons, hN]
        | false =>
          have hloop : commLoop fs ws (x :: rest) ac nw rt =
              commLoop fs ws rest (counterAdd ac u) nw (addSet rt u) := by
            unfold isNewAuthor at hN
            cases hL : fs.lookup u with
            | none => simp [commLoop, hA, hC, hL]
            | some t =>
              rw [hL] at hN
              have hnle : ¬ws ≤ t := of_decide_eq_false hN
              simp [commLoop, hA, hC, hL, hnle]
          rw [hloop, hids, ih]
          simp [List.filter_cons, hN]

theorem compute_community_metrics_eq_canon (fs : List (Int × Time)) (items : List Item)
    (ws : Time) : compute_community_metrics fs items ws = commCanon fs items ws := by
  unfold compute_community_metrics commCanon counterOf setOf
  rw [commLoop_characterize]

theorem isNewAuthor_ext {fs₁ fs₂ : List (Int × Time)} (ws : Time)
    (hfs : ∀ u, fs₁.lookup u = fs₂.lookup u) : isNewAuthor fs₁ ws = isNewAuthor fs₂ ws := by
  funext u
  unfold isNewAuthor
  rw [hfs u]

theorem commCanon_numeric_perm {fs₁ fs₂ : List (Int × Time)} {items₁ items₂ : List Item}
    (ws : Time) (hfs : ∀ u, fs₁.lookup u = fs₂.lookup u) (h : List.Perm items₁ items₂) :
    (commCanon fs₁ items₁ ws).unique_contributors =
      (commCanon fs₂ items₂ ws).unique_contributors ∧
    (commCanon fs₁ items₁ ws).new_contributors = (commCanon fs₂ items₂ ws).new_contributors ∧
    (commCanon fs₁ items₁ ws).returning_contributors =
      (commCanon fs₂ items₂ ws).returning_contributors ∧
    (commCanon fs₁ items₁ ws).return_rate_pct = (commCanon fs₂ items₂ ws).return_rate_pct ∧
    (commCanon fs₁ items₁ ws).author_top1_pct = (commCanon fs₂ items₂ ws).author_top1_pct ∧
    (commCanon fs₁ items₁ ws).author_top2_pct = (commCanon fs₂ items₂ ws).author_top2_pct := by
  have hnew := isNewAuthor_ext ws hfs
  have hids : List.Perm (eventAuthorIds items₁) (eventAuthorIds items₂) := h.filterMap _
  have hac : List.Perm (counterOf (eventAuthorIds items₁)) (counterOf (eventAuthorIds items₂)) :=
    counter_perm_of_ids_perm hids
  have hlen : (counterOf (eventAuthorIds items₁)).length =
      (counterOf (eventAuthorIds items₂)).length := hac.length_eq
  have hnw : (setOf ((eventAuthorIds items₁).filter (isNewAuthor fs₁ ws))).length =
      (setOf ((eventAuthorIds items₂).filter (isNewAuthor fs₂ ws))).length := by
    rw [hnew]
    exact (setOf_perm (hids.filter _)).length_eq
  have hrt : (setOf ((eventAuthorIds items₁).filter (fun u => !isNewAuthor fs₁ ws u))).length =
      (setOf ((eventAuthorIds items₂).filter (fun u => !isNewAuthor fs₂ ws u))).length := by
    rw [hnew]
    exact (setOf_perm (hids.filter _)).length_eq
  have htot : counterTotal (counterOf (eventAuthorIds items₁)) =
      counterTotal (counterOf (eventAuthorIds items₂)) := by
    rw [counterOf_total, counterOf_total, hids.length_eq]
  have hsc := sortedCounts_perm hac
  have htopslen : (most_common (counterOf (eventAuthorIds items₁)) 2).length =
      (most_common (counterOf (eventAuthorIds items₂)) 2).length := by
    unfold most_common
    rw [List.length_take, List.length_take,
      (pysort_perm countDescLE _).length_eq, hlen,
      ← (pysort_perm countDescLE (counterOf (eventAuthorIds items₂))).length_eq]
  refine ⟨?_, ?_, ?_, ?_, ?_, ?_⟩
  · simp only [commCanon]
    exact hlen
  · simp only [commCanon]
    exact hnw
  · simp only [commCanon]
    exact hrt
  · simp only [commCanon]
    rw [hlen, hrt]
  · simp only [commCanon]
    rw [most_common_headD_snd, most_common_headD_snd, hsc, htot]
  · simp only [commCanon]
    rw [most_common_sum_cast, most_common_sum_cast, hsc, htot, htopslen]

/-! ### Rolling-window and orchestrator characterization -/

theorem filterLastDaysGo_characterize (cutoff : Time) (items : List Item) :
    filterLastDaysGo cutoff items =
      if items.any createdMissing then Except.error "TypeError"
      else Except.ok (items.filter
        (fun x => decide (cutoff ≤ (parse_datetime x.createdAt).getD 0))) := by
  induction items with
  | nil => simp [filterLastDaysGo]
  | cons x rest ih =>
    cases hC : parse_datetime x.createdAt with
    | none =>
      have hm : createdMissing x = true := by simp [createdMissing, hC]
      simp [filterLastDaysGo, hC, List.any_cons, hm]
    | some t =>
      have hm : createdMissing x = false := by simp [createdMissing, hC]
      simp only [filterLastDaysGo, hC, List.any_cons, hm, Bool.false_or, ih]
      by_cases hany : rest.any createdMissing = true
      · rw [hany]
        simp
      · have hf : rest.any createdMissing = false := by
          cases hv : rest.any createdMissing
          · rfl
          · exact absurd hv hany
        rw [hf]
        simp only [Bool.false_eq_true, if_false]
        rw [List.filter_cons]
        simp [hC]

theorem filter_last_days_ok {items : List Item} (days : Int) (now : Time)
    (h : items.any createdMissing = false) :
    filter_last_days items days now = Except.ok (windowFilter items days now) := by
  unfold filter_last_days windowFilter
  rw [filterLastDaysGo_characterize, h]
  simp

theorem filter_last_days_err {items : List Item} (days : Int) (now : Time)
    (h : items.any createdMissing = true) :
    filter_last_days items days now = Except.error "TypeError" := by
  unfold filter_last_days
  rw [filterLastDaysGo_characterize, h]
  simp

theorem windowFilter_sub {items : List Item} {days : Int} {now : Time} {x : Item}
    (h : x ∈ windowFilter items days now) : x ∈ items :=
  List.mem_of_mem_filter h

theorem windowFor_ok {fs : List (Int × Time)} {prs issues : List Item} (days : Int) (now : Time)
    (hbad : ∀ pr ∈ prs, execBad pr = false)
    (hp : prs.any createdMissing = false) (hi : issues.any createdMissing = false) :
    windowFor fs prs issues days now = Except.ok (windowCanon fs prs issues days now) := by
  unfold windowFor windowCanon
  rw [filter_last_days_ok days now hp, filter_last_days_ok days now hi]
  have hbadw : ∀ pr ∈ windowFilter prs days now, execBad pr = false :=
    fun pr hpr => hbad pr (windowFilter_sub hpr)
  show (Except.ok (windowFilter prs days now) >>= _ : Except String WindowMetrics) = _
  simp only [bind, Except.bind]
  rw [compute_execution_metrics_ok hbadw]
  simp only [bind, Except.bind]
  rw [compute_community_metrics_eq_canon]
  rfl

theorem bucketAdd_lookup_sub {bs : List (String × List Item)} {k0 k : String} {x y : Item}
    (h : y ∈ ((bucketAdd bs k0 x).lookup k).getD []) :
    y ∈ (bs.lookup k).getD [] ∨ y = x := by
  induction bs with
  | nil =>
    simp only [bucketAdd] at h
    by_cases hk : k = k0
    · have hb : (k == k0) = true := beq_iff_eq.mpr hk
      simp [List.lookup_cons, hb] at h
      simp [h]
    · have hb : (k == k0) = false := beq_false_of_ne hk
      simp [List.lookup_cons, hb] at h
  | cons e rest ih =>
    obtain ⟨ke, le⟩ := e
    simp only [bucketAdd] at h
    by_cases he : ke = k0
    · rw [if_pos he] at h
      by_cases hk : k = ke
      · have hb : (k == ke) = true := beq_iff_eq.mpr hk
        simp only [List.lookup_cons, hb] at h ⊢
        simp only [Option.getD_some] at h ⊢
        rcases List.mem_append.mp h with h2 | h2
        · exact Or.inl h2
        · exact Or.inr (List.mem_singleton.mp h2)
      · have hb : (k == ke) = false := beq_false_of_ne hk
        simp only [List.lookup_cons, hb] at h ⊢
        exact Or.inl h
    · rw [if_neg he] at h
      by_cases hk : k = ke
      · have hb : (k == ke) = true := beq_iff_eq.mpr hk
        simp only [List.lookup_cons, hb] at h ⊢
        exact Or.inl h
      · have hb : (k == ke) = false := beq_false_of_ne hk
        simp only [List.lookup_cons, hb] at h ⊢
        exact ih h

theorem groupFold_sub (base : List Item) :
    ∀ (acc : List (String × List Item)) (P : Item → Prop),
      (∀ k x, x ∈ (acc.lookup k).getD [] → P x) → (∀ x ∈ base, P x) →
      ∀ k x, x ∈ ((base.foldl (fun bs y =>
        match parse_datetime y.createdAt with
        | some c => bucketAdd bs (monthKeyOf c) y
        | none => bs) acc).lookup k).getD [] → P x := by
  induction base with
  | nil =>
    intro acc P hacc _ k x hx
    exact hacc k x hx
  | cons y rest ih =>
    intro acc P hacc hbase k x hx
    simp only [List.foldl_cons] at hx
    cases hC : parse_datetime y.createdAt with
    | none =>
      rw [hC] at hx
      exact ih acc P hacc (fun z hz => hbase z (List.mem_cons_of_mem _ hz)) k x hx
    | some c =>
      rw [hC] at hx
      refine ih (bucketAdd acc (monthKeyOf c) y) P ?_
        (fun z hz => hbase z (List.mem_cons_of_mem _ hz)) k x hx
      intro k2 x2 hx2
      rcases bucketAdd_lookup_sub hx2 with h2 | h2
      · exact hacc k2 x2 h2
      · exact h2 ▸ hbase y (List.mem_cons_self _ _)

theorem group_by_month_sub (items : List Item) :
    ∀ k x, x ∈ ((group_by_month items).lookup k).getD [] → x ∈ items := by
  unfold group_by_month
  exact groupFold_sub items [] (fun x => x ∈ items)
    (by intro k x hx; simp [List.lookup] at hx) (fun _ h => h)

theorem monthlyLoop_ok (fs : List (Int × Time)) (prs issues : List Item)
    (mprs miss : List (String × List Item)) (months : List String)
    (hsub : ∀ k x, x ∈ (mprs.lookup k).getD [] → x ∈ prs)
    (hbad : ∀ pr ∈ prs, execBad pr = false) :
    ∃ m, monthlyLoop fs prs issues mprs miss months = Except.ok m := by
  induction months with
  | nil => exact ⟨[], rfl⟩
  | cons month rest ih =>
    obtain ⟨m, hm⟩ := ih
    have hbadm : ∀ pr ∈ (mprs.lookup month).getD [], execBad pr = false :=
      fun pr hpr => hbad pr (hsub month pr hpr)
    refine ⟨(month,
      { execution := execCanon ((mprs.lookup month).getD [])
        community := compute_community_metrics fs
          (((mprs.lookup month).getD []) ++ ((miss.lookup month).getD []))
          (monthStartTime month)
        backlog := some (compute_backlog prs issues (nextMonthTime month - 86400)) }) :: m, ?_⟩
    show (monthlyLoop fs prs issues mprs miss (month :: rest)) = _
    unfold monthlyLoop
    simp only [compute_execution_metrics_ok hbadm, hm]
    rfl

theorem windowFor_err {prs issues : List Item} (fs : List (Int × Time)) (days : Int)
    (now : Time) (h : (prs ++ issues).any createdMissing = true) :
    windowFor fs prs issues days now = Except.error "TypeError" := by
  unfold windowFor
  rw [List.any_append] at h
  cases hp : prs.any createdMissing with
  | true =>
    rw [filter_last_days_err days now hp]
    rfl
  | false =>
    have hi : issues.any createdMissing = true := by
      rw [hp] at h
      simpa using h
    rw [filter_last_days_ok days now hp, filter_last_days_err days now hi]
    rfl

theorem analyze_all_err_exec (prs issues : List Item) (now : Time)
    (h : prs.any execBad = true) :
    analyze_all prs issues now = Except.error "ValueError" := by
  unfold analyze_all
  simp only [compute_execution_metrics_err h]
  rfl

theorem analyze_all_err_missing (prs issues : List Item) (now : Time)
    (hbad : ∀ pr ∈ prs, execBad pr = false)
    (hm : (prs ++ issues).any createdMissing = true) :
    analyze_all prs issues now = Except.error "TypeError" := by
  unfold analyze_all
  simp only [compute_execution_metrics_ok hbad, windowFor_err _ 365 now hm]
  rfl

theorem analyze_all_ok (prs issues : List Item) (now : Time)
    (hbad : ∀ pr ∈ prs, execBad pr = false)
    (hp : prs.any createdMissing = false) (hi : issues.any createdMissing = false) :
    ∃ monthly, analyze_all prs issues now = Except.ok
      { all_time :=
          { execution := execCanon prs
            community := compute_community_metrics (build_first_seen_map (prs ++ issues))
              (prs ++ issues) (fsValuesMin (build_first_seen_map (prs ++ issues)) now)
            backlog := none }
        rolling_windows :=
          { last_365_days := windowCanon (build_first_seen_map (prs ++ issues)) prs issues 365 now
            last_180_days := windowCanon (build_first_seen_map (prs ++ issues)) prs issues 180 now
            last_90_days := windowCanon (build_first_seen_map (prs ++ issues)) prs issues 90 now }
        monthly := monthly } := by
  obtain ⟨m, hm⟩ := monthlyLoop_ok (build_first_seen_map (prs ++ issues)) prs issues
    (group_by_month prs) (group_by_month issues)
    (pysort sle (dedupKeys ((group_by_month prs).map (fun e => e.1) ++
      (group_by_month issues).map (fun e => e.1))))
    (group_by_month_sub prs) hbad
  refine ⟨m, ?_⟩
  unfold analyze_all
  simp only [compute_execution_metrics_ok hbad,
    windowFor_ok 365 now hbad hp hi, windowFor_ok 180 now hbad hp hi,
    windowFor_ok 90 now hbad hp hi, hm]
  rfl

/-! ### Permutation transfer for the first-seen map and the scorer -/

theorem any_perm {α : Type} {l₁ l₂ : List α} (p : α → Bool) (h : List.Perm l₁ l₂) :
    l₁.any p = l₂.any p := by
  cases hv : l₂.any p with
  | true =>
    obtain ⟨x, hx, hpx⟩ := List.any_eq_true.mp hv
    exact List.any_eq_true.mpr ⟨x, h.mem_iff.mpr hx, hpx⟩
  | false =>
    refine List.any_eq_false.mpr ?_
    intro x hx
    exact List.any_eq_false.mp hv x (h.mem_iff.mp hx)

theorem build_first_seen_lookup_perm {items₁ items₂ : List Item}
    (h : List.Perm items₁ items₂) (u : Int) :
    (build_first_seen_map items₁).lookup u = (build_first_seen_map items₂).lookup u := by
  rw [build_first_seen_lookup, build_first_seen_lookup]
  exact minOption_perm (h.filterMap _)

theorem build_first_seen_perm {items₁ items₂ : List Item} (h : List.Perm items₁ items₂) :
    List.Perm (build_first_seen_map items₁) (build_first_seen_map items₂) :=
  assoc_perm_of_lookup_eq (build_first_seen_keys_nodup items₁)
    (build_first_seen_keys_nodup items₂) (build_first_seen_lookup_perm h)

theorem fsValuesMin_eq_minOption (fs : List (Int × Time)) (now : Time) :
    fsValuesMin fs now = (minOption (fs.map (fun e => e.2))).getD now := by
  unfold fsValuesMin
  cases fs.map (fun e => e.2) with
  | nil => rfl
  | cons v vs => rfl

theorem fsValuesMin_perm {fs₁ fs₂ : List (Int × Time)} (h : List.Perm fs₁ fs₂) (now : Time) :
    fsValuesMin fs₁ now = fsValuesMin fs₂ now := by
  rw [fsValuesMin_eq_minOption, fsValuesMin_eq_minOption, minOption_perm (h.map _)]

theorem overall_score_congr {d₁ d₂ : MetricsDoc}
    (he1 : d₁.all_time.execution.median_merge_days = d₂.all_time.execution.median_merge_days)
    (he2 : d₁.all_time.execution.median_first_response_hours =
      d₂.all_time.execution.median_first_response_hours)
    (he3 : d₁.all_time.execution.review_top1_pct = d₂.all_time.execution.review_top1_pct)
    (hc : d₁.all_time.community.return_rate_pct = d₂.all_time.community.return_rate_pct)
    (hb : d₁.rolling_windows.last_90_days.backlog = d₂.rolling_windows.last_90_days.backlog) :
    (calculate_overall_score d₁).overall_score = (calculate_overall_score d₂).overall_score := by
  unfold calculate_overall_score calculate_execution_score calculate_community_score
    calculate_backlog_score
  rw [he1, he2, he3, hc, hb]

theorem any_false_all {α : Type} {l : List α} {p : α → Bool} (h : l.any p = false) :
    ∀ x ∈ l, p x = false := by
  intro x hx
  cases hv : p x with
  | true => exact absurd hv (List.any_eq_false.mp h x hx)
  | false => rfl

theorem overall_score_perm_invariant (prs₁ prs₂ issues₁ issues₂ : List Item) (now : Time)
    (hp : List.Perm prs₁ prs₂) (hi : List.Perm issues₁ issues₂) :
    (analyze_all prs₁ issues₁ now).map (fun d => (calculate_overall_score d).overall_score) =
      (analyze_all prs₂ issues₂ now).map
        (fun d => (calculate_overall_score d).overall_score) := by
  have happ : List.Perm (prs₁ ++ issues₁) (prs₂ ++ issues₂) := hp.append hi
  cases hbad : prs₁.any execBad with
  | true =>
    rw [analyze_all_err_exec _ _ _ hbad,
      analyze_all_err_exec _ _ _ (by rw [← any_perm _ hp]; exact hbad)]
  | false =>
    have hbadf₂ : prs₂.any execBad = false := by rw [← any_perm _ hp]; exact hbad
    have hbadall₁ : ∀ pr ∈ prs₁, execBad pr = false := any_false_all hbad
    have hbadall₂ : ∀ pr ∈ prs₂, execBad pr = false := any_false_all hbadf₂
    cases hmiss : (prs₁ ++ issues₁).any createdMissing with
    | true =>
      rw [analyze_all_err_missing _ _ _ hbadall₁ hmiss,
        analyze_all_err_missing _ _ _ hbadall₂ (by rw [← any_perm _ happ]; exact hmiss)]
    | false =>
      have hmiss₂ : (prs₂ ++ issues₂).any createdMissing = false := by
        rw [← any_perm _ happ]; exact hmiss
      rw [List.any_append] at hmiss hmiss₂
      have hmp₁ : prs₁.any createdMissing = false := by
        cases hv : prs₁.any createdMissing
        · rfl
        · rw [hv] at hmiss; simp at hmiss
      have hmi₁ : issues₁.any createdMissing = false := by
        cases hv : issues₁.any createdMissing
        · rfl
        · rw [hv] at hmiss; simp at hmiss
      have hmp₂ : prs₂.any createdMissing = false := by
        cases hv : prs₂.any createdMissing
        · rfl
        · rw [hv] at hmiss₂; simp at hmiss₂
      have hmi₂ : issues₂.any createdMissing = false := by
        cases hv : issues₂.any createdMissing
        · rfl
        · rw [hv] at hmiss₂; simp at hmiss₂
      obtain ⟨m₁, hd₁⟩ := analyze_all_ok prs₁ issues₁ now hbadall₁ hmp₁ hmi₁
      obtain ⟨m₂, hd₂⟩ := analyze_all_ok prs₂ issues₂ now hbadall₂ hmp₂ hmi₂
      rw [hd₁, hd₂]
      show Except.ok _ = Except.ok _
      congr 1
      have hfs : ∀ u, (build_first_seen_map (prs₁ ++ issues₁)).lookup u =
          (build_first_seen_map (prs₂ ++ issues₂)).lookup u :=
        build_first_seen_lookup_perm happ
      have hps : fsValuesMin (build_first_seen_map (prs₁ ++ issues₁)) now =
          fsValuesMin (build_first_seen_map (prs₂ ++ issues₂)) now :=
        fsValuesMin_perm (build_first_seen_perm happ) now
      have hexec := execCanon_fields_perm hp
      refine overall_score_congr ?_ ?_ ?_ ?_ rfl
      · exact hexec.1
      · exact hexec.2.1
      · exact hexec.2.2.1
      · show (compute_community_metrics (build_first_seen_map (prs₁ ++ issues₁))
            (prs₁ ++ issues₁)
            (fsValuesMin (build_first_seen_map (prs₁ ++ issues₁)) now)).return_rate_pct = _
        rw [compute_community_metrics_eq_canon, compute_community_metrics_eq_canon, hps]
        exact (commCanon_numeric_perm _ hfs happ).2.2.2.1

/-! ### Stalled-actions characterization -/

theorem stalledFilterGo_ok {items : List Item} (now : Time) (pred : Int → Bool)
    (h : ∀ x ∈ items, x.createdAt.isSome) :
    stalledFilterGo now pred items =
      Except.ok ((items.filter (fun x => pred (itemAgeDays now x))).map (fun x => x.number)) := by
  induction items with
  | nil => simp [stalledFilterGo]
  | cons x rest ih =>
    cases hC : x.createdAt with
    | none =>
      exact absurd (h x (List.mem_cons_self _ _)) (by simp [hC])
    | some c =>
      have hage : itemAgeDays now x = Int.fdiv (now - c) 86400 := by
        simp [itemAgeDays, parse_datetime, hC]
      simp only [stalledFilterGo, hC, ih (fun y hy => h y (List.mem_cons_of_mem _ hy))]
      rw [List.filter_cons, ← hage]
      by_cases hpv : pred (itemAgeDays now x) = true
      · rw [if_pos hpv, if_pos hpv, List.map_cons]
      · rw [if_neg hpv, if_neg hpv]

theorem windowFor_backlog_none {fs : List (Int × Time)} {prs issues : List Item}
    {days : Int} {now : Time} {w : WindowMetrics}
    (h : windowFor fs prs issues days now = Except.ok w) : w.backlog = none := by
  unfold windowFor at h
  cases h1 : filter_last_days prs days now with
  | error e => rw [h1] at h; exact absurd h (by simp [bind, Except.bind])
  | ok wprs =>
    rw [h1] at h
    simp only [bind, Except.bind] at h
    cases h2 : filter_last_days issues days now with
    | error e => rw [h2] at h; exact absurd h (by simp)
    | ok wiss =>
      rw [h2] at h
      cases h3 : compute_execution_metrics wprs with
      | error e => rw [h3] at h; exact absurd h (by simp)
      | ok ex =>
        rw [h3] at h
        simp only [pure, Except.pure] at h
        injection h with h
        rw [← h]

theorem analyze_all_backlog90_none {prs issues : List Item} {now : Time} {doc : MetricsDoc}
    (h : analyze_all prs issues now = Except.ok doc) :
    doc.rolling_windows.last_90_days.backlog = none := by
  unfold analyze_all at h
  cases h1 : compute_execution_metrics prs with
  | error e => rw [h1] at h; exact absurd h (by simp [bind, Except.bind])
  | ok at_ex =>
    rw [h1] at h
    simp only [bind, Except.bind] at h
    cases h2 : windowFor (build_first_seen_map (prs ++ issues)) prs issues 365 now with
    | error e => rw [h2] at h; exact absurd h (by simp)
    | ok w365 =>
      rw [h2] at h
      cases h3 : windowFor (build_first_seen_map (prs ++ issues)) prs issues 180 now with
      | error e => rw [h3] at h; exact absurd h (by simp)
      | ok w180 =>
        rw [h3] at h
        cases h4 : windowFor (build_first_seen_map (prs ++ issues)) prs issues 90 now with
        | error e => rw [h4] at h; exact absurd h (by simp)
        | ok w90 =>
          rw [h4] at h
          cases h5 : monthlyLoop (build_first_seen_map (prs ++ issues)) prs issues
              (group_by_month prs) (group_by_month issues)
              (pysort sle (dedupKeys ((group_by_month prs).map (fun e => e.1) ++
                (group_by_month issues).map (fun e => e.1)))) with
          | error e => rw [h5] at h; exact absurd h (by simp)
          | ok m =>
            rw [h5] at h
            simp only [pure, Except.pure] at h
            injection h with h
            rw [← h]
            exact windowFor_backlog_none h4

theorem calculate_backlog_score_none : calculate_backlog_score none = (100, (100, 100)) := by
  unfold calculate_backlog_score score_metric
  have h1 : targets.lookup "median_open_pr_age_days" = some (7, 90) := rfl
  have h2 : targets.lookup "median_open_issue_age_days" = some (14, 180) := rfl
  rw [h1, h2]
  unfold score_with_target
  norm_num

theorem round2_hundred : round2 100 = 100 := by
  unfold round2 roundHalfEven
  norm_num

theorem sub_backlog_of_none {doc : MetricsDoc}
    (h : doc.rolling_windows.last_90_days.backlog = none) :
    (calculate_overall_score doc).sub_backlog = 100 := by
  unfold calculate_overall_score
  rw [h]
  show round2 (calculate_backlog_score none).1 = 100
  rw [calculate_backlog_score_none]
  exact round2_hundred

/-! ## Claim theorems -/

/-- C3: a record lacking `createdAt` inside the trailing-window
restriction is NOT resolved by exclusion: `filter_last_days` compares
`None >= cutoff`, which raises `TypeError`, and `analyze_all` propagates
it as a fatal error.  This refutes the claim and exhibits the code bug at
the concrete failing inputs (an item with absent `createdAt`, alone, after
a well-formed PR, and inside a full `analyze_all` run). -/
theorem c3_missing_created_at_is_fatal :
    filter_last_days [bareItem] 90 0 = Except.error "TypeError" ∧
    filter_last_days [plainPr 1 (-10 * daySec), bareItem] 90 0 = Except.error "TypeError" ∧
    analyze_all [] [bareItem] 0 = Except.error "TypeError" :=
  ⟨rfl, rfl, rfl⟩

/-- C7: over the empty PR subset, `compute_execution_metrics` returns
(without raising) zero medians and zero concentration percentages; over
the empty item subset, `compute_community_metrics` returns zero
return-rate and zero concentration percentages. -/
theorem c7_empty_sample_zeros (fs : List (Int × Time)) (ws : Time) :
    compute_execution_metrics [] = Except.ok
      { median_merge_days := 0, median_first_response_hours := 0, review_top1_pct := 0,
        review_top2_pct := 0, total_prs := 0, top_reviewers_by_id := [] } ∧
    (compute_community_metrics fs [] ws).return_rate_pct = 0 ∧
    (compute_community_metrics fs [] ws).author_top1_pct = 0 ∧
    (compute_community_metrics fs [] ws).author_top2_pct = 0 :=
  ⟨rfl, rfl, rfl, rfl⟩

/-- C9: `compute_backlog` counts a PR as open as of `as_of` exactly when
its `createdAt` parses with `createdAt <= as_of` and `mergedAt` is absent
or `> as_of` (a PR closed without merge is never excluded), and counts an
issue as open exactly when its `createdAt` parses with `createdAt <=
as_of` and its fetch-time state is not CLOSED. -/
theorem c9_backlog_open_iff (prs issues : List Item) (as_of : Time) (x : Item) :
    ((compute_backlog prs issues as_of).open_pr_count = (backlogOpenPrs prs as_of).length ∧
     (compute_backlog prs issues as_of).open_issue_count =
       (backlogOpenIssues issues as_of).length) ∧
    (x ∈ backlogOpenPrs prs as_of ↔ x ∈ prs ∧ ∃ c, parse_datetime x.createdAt = some c ∧
      c ≤ as_of ∧ (parse_datetime x.mergedAt = none ∨
        ∃ m, parse_datetime x.mergedAt = some m ∧ as_of < m)) ∧
    (x ∈ backlogOpenIssues issues as_of ↔ x ∈ issues ∧
      ∃ c, parse_datetime x.createdAt = some c ∧ c ≤ as_of ∧ x.state ≠ "CLOSED") := by
  refine ⟨⟨rfl, rfl⟩, ?_, ?_⟩
  · rw [backlogOpenPrs, List.mem_filter]
    refine and_congr_right fun _ => ?_
    cases hC : parse_datetime x.createdAt with
    | none => simp [hC]
    | some c =>
      cases hM : parse_datetime x.mergedAt with
      | none => simp [hC, hM]
      | some m => simp [hC, hM]
  · rw [backlogOpenIssues, List.mem_filter]
    refine and_congr_right fun _ => ?_
    cases hC : parse_datetime x.createdAt with
    | none => simp [hC]
    | some c => simp [hC, bne_iff_ne]

/-- C10: the first-contribution index is monotonic with the dataset:
whenever the index built from `L` holds a value for a contributor id,
the index built from `L` plus one more item holds a value for that id
that is less than or equal to it. -/
theorem c10_first_seen_monotone (L : List Item) (i : Item) (u : Int) (t : Time)
    (h : (build_first_seen_map L).lookup u = some t) :
    ∃ t2, (build_first_seen_map (L ++ [i])).lookup u = some t2 ∧ t2 ≤ t := by
  rw [build_first_seen_lookup] at h
  rw [build_first_seen_lookup, List.filterMap_append, minOption_eq_minFold, minFold_append]
  rw [minOption_eq_minFold] at h
  rw [h]
  cases hB : minFold (List.filterMap (eligCreated u) [i]) with
  | none => exact ⟨t, rfl, le_refl t⟩
  | some b => exact ⟨min t b, rfl, min_le_left t b⟩

/-- C10 witness: a contributor first seen at time 100 in the base list is
re-seen at time 0 after an older item is appended. -/
theorem c10_first_seen_monotone_witness :
    ∃ t2, (build_first_seen_map ([plainPr 1 100] ++ [plainPr 2 0])).lookup 7 = some t2 ∧
      t2 ≤ 100 :=
  c10_first_seen_monotone [plainPr 1 100] (plainPr 2 0) 7 100 (by decide)

/-- C6: the per-metric scoring function returns 100 at or below the good
target and 0 at or beyond the bad target when `good < bad`, with linear
interpolation `100 * (bad - v) / (bad - good)` strictly between; the
mirrored inequalities and interpolation `100 * (v - bad) / (good - bad)`
when `good > bad`; and 0 for a metric name with no configured target. -/
theorem c6_score_metric_bands (good bad v : ℚ) (name : String) :
    (good < bad →
      ((v ≤ good → score_with_target (some (good, bad)) v = 100) ∧
       (bad ≤ v → score_with_target (some (good, bad)) v = 0) ∧
       (good < v → v < bad →
         score_with_target (some (good, bad)) v = 100 * (bad - v) / (bad - good)))) ∧
    (bad < good →
      ((good ≤ v → score_with_target (some (good, bad)) v = 100) ∧
       (v ≤ bad → score_with_target (some (good, bad)) v = 0) ∧
       (bad < v → v < good →
         score_with_target (some (good, bad)) v = 100 * (v - bad) / (good - bad)))) ∧
    (targets.lookup name = none → score_metric name v = 0) := by
  refine ⟨fun hgb => ⟨?_, ?_, ?_⟩, fun hbg => ⟨?_, ?_, ?_⟩, fun hn => ?_⟩
  · intro hv
    show (if good < bad then _ else _) = (100 : ℚ)
    rw [if_pos hgb, if_pos hv]
  · intro hv
    show (if good < bad then _ else _) = (0 : ℚ)
    rw [if_pos hgb, if_neg (not_le.mpr (lt_of_lt_of_le hgb hv))]
    rw [if_pos hv]
  · intro h1 h2
    show (if good < bad then _ else _) = _
    rw [if_pos hgb, if_neg (not_le.mpr h1), if_neg (not_le.mpr h2)]
  · intro hv
    show (if good < bad then _ else _) = (100 : ℚ)
    rw [if_neg (not_lt.mpr hbg.le), if_pos hv]
  · intro hv
    show (if good < bad then _ else _) = (0 : ℚ)
    rw [if_neg (not_lt.mpr hbg.le), if_neg (not_le.mpr (lt_of_le_of_lt hv hbg))]
    rw [if_pos hv]
  · intro h1 h2
    show (if good < bad then _ else _) = _
    rw [if_neg (not_lt.mpr hbg.le), if_neg (not_le.mpr h2), if_neg (not_le.mpr h1)]
  · unfold score_metric
    rw [hn]
    rfl

/-- C8: in `compute_community_metrics` over a subset of the corpus, every
counted contributor id has a first-seen value in the index, lands in
exactly one of the new / returning sets, and lands in the new set exactly
when the index value is `>= window_start` (the boundary is inclusive on
the new side). -/
theorem c8_new_returning_classification (prs issues subset : List Item) (ws : Time) (u : Int)
    (hsub : ∀ x ∈ subset, x ∈ prs ++ issues)
    (hcount : u ∈ eventAuthorIds subset) :
    (∃ t, (build_first_seen_map (prs ++ issues)).lookup u = some t) ∧
    ((u ∈ (commLoop (build_first_seen_map (prs ++ issues)) ws subset [] [] []).2.1 ∨
      u ∈ (commLoop (build_first_seen_map (prs ++ issues)) ws subset [] [] []).2.2) ∧
     ¬(u ∈ (commLoop (build_first_seen_map (prs ++ issues)) ws subset [] [] []).2.1 ∧
       u ∈ (commLoop (build_first_seen_map (prs ++ issues)) ws subset [] [] []).2.2)) ∧
    (u ∈ (commLoop (build_first_seen_map (prs ++ issues)) ws subset [] [] []).2.1 ↔
      ∃ t, (build_first_seen_map (prs ++ issues)).lookup u = some t ∧ ws ≤ t) := by
  have hnewmem : ∀ v, v ∈ (commLoop (build_first_seen_map (prs ++ issues)) ws subset
      [] [] []).2.1 ↔ v ∈ eventAuthorIds subset ∧
        isNewAuthor (build_first_seen_map (prs ++ issues)) ws v = true := by
    intro v
    rw [commLoop_characterize]
    show v ∈ ((eventAuthorIds subset).filter _).foldl addSet [] ↔ _
    rw [show ((eventAuthorIds subset).filter
        (isNewAuthor (build_first_seen_map (prs ++ issues)) ws)).foldl addSet [] =
      setOf ((eventAuthorIds subset).filter
        (isNewAuthor (build_first_seen_map (prs ++ issues)) ws)) from rfl]
    rw [setOf_mem, List.mem_filter]
  have hretmem : ∀ v, v ∈ (commLoop (build_first_seen_map (prs ++ issues)) ws subset
      [] [] []).2.2 ↔ v ∈ eventAuthorIds subset ∧
        isNewAuthor (build_first_seen_map (prs ++ issues)) ws v = false := by
    intro v
    rw [commLoop_characterize]
    show v ∈ ((eventAuthorIds subset).filter _).foldl addSet [] ↔ _
    rw [show ((eventAuthorIds subset).filter
        (fun w => !isNewAuthor (build_first_seen_map (prs ++ issues)) ws w)).foldl addSet [] =
      setOf ((eventAuthorIds subset).filter
        (fun w => !isNewAuthor (build_first_seen_map (prs ++ issues)) ws w)) from rfl]
    rw [setOf_mem, List.mem_filter]
    simp
  have hisnew : ∀ v, isNewAuthor (build_first_seen_map (prs ++ issues)) ws v = true ↔
      ∃ t, (build_first_seen_map (prs ++ issues)).lookup v = some t ∧ ws ≤ t := by
    intro v
    unfold isNewAuthor
    cases hL : (build_first_seen_map (prs ++ issues)).lookup v with
    | none => simp
    | some t => simp
  have hexists : ∃ t, (build_first_seen_map (prs ++ issues)).lookup u = some t := by
    obtain ⟨x, hx, hfx⟩ := List.mem_filterMap.mp hcount
    rw [build_first_seen_lookup]
    have helig : ∃ c, eligCreated u x = some c := by
      cases hA : countedAuthorId x with
      | none => rw [hA] at hfx; exact absurd hfx (by simp)
      | some v =>
        cases hC : parse_datetime x.createdAt with
        | none => rw [hA, hC] at hfx; exact absurd hfx (by simp)
        | some c =>
          rw [hA, hC] at hfx
          have hv : v = u := by
            injection hfx
          refine ⟨c, ?_⟩
          unfold eligCreated
          rw [hA, hC]
          show (if v = u then some c else none) = some c
          rw [if_pos hv]
    obtain ⟨c, hc⟩ := helig
    have hmem : c ∈ (prs ++ issues).filterMap (eligCreated u) :=
      List.mem_filterMap.mpr ⟨x, hsub x hx, hc⟩
    cases hl : (prs ++ issues).filterMap (eligCreated u) with
    | nil => rw [hl] at hmem; simp at hmem
    | cons t ts => exact ⟨listMin t ts, rfl⟩
  refine ⟨hexists, ⟨?_, ?_⟩, ?_⟩
  · cases hN : isNewAuthor (build_first_seen_map (prs ++ issues)) ws u with
    | true => exact Or.inl ((hnewmem u).mpr ⟨hcount, hN⟩)
    | false => exact Or.inr ((hretmem u).mpr ⟨hcount, hN⟩)
  · rintro ⟨h1, h2⟩
    have e1 := ((hnewmem u).mp h1).2
    have e2 := ((hretmem u).mp h2).2
    rw [e1] at e2
    exact Bool.true_eq_false ▸ e2 ▸ rfl
  · rw [hnewmem u, ← hisnew u]
    constructor
    · intro hh
      exact hh.2
    · intro hh
      exact ⟨hcount, hh⟩

/-- C8 witness: with one PR whose author is first seen exactly at the
window start, that contributor has an index value and classifies as new. -/
theorem c8_new_returning_classification_witness :
    (∃ t, (build_first_seen_map ([plainPr 1 0] ++ [])).lookup 7 = some t) ∧
    ((7 ∈ (commLoop (build_first_seen_map ([plainPr 1 0] ++ [])) 0 [plainPr 1 0]
        [] [] []).2.1 ∨
      7 ∈ (commLoop (build_first_seen_map ([plainPr 1 0] ++ [])) 0 [plainPr 1 0]
        [] [] []).2.2) ∧
     ¬(7 ∈ (commLoop (build_first_seen_map ([plainPr 1 0] ++ [])) 0 [plainPr 1 0]
         [] [] []).2.1 ∧
       7 ∈ (commLoop (build_first_seen_map ([plainPr 1 0] ++ [])) 0 [plainPr 1 0]
         [] [] []).2.2)) ∧
    (7 ∈ (commLoop (build_first_seen_map ([plainPr 1 0] ++ [])) 0 [plainPr 1 0]
        [] [] []).2.1 ↔
      ∃ t, (build_first_seen_map ([plainPr 1 0] ++ [])).lookup 7 = some t ∧ (0 : Time) ≤ t) :=
  c8_new_returning_classification [plainPr 1 0] [] [plainPr 1 0] 0 7
    (by decide) (by decide)

theorem headD_le_take2_sum (s : List Nat) :
    ((s.headD 0 : Nat) : ℚ) ≤ ((s.take 2).map (Nat.cast : Nat → ℚ)).sum := by
  cases s with
  | nil => simp
  | cons a rest =>
    cases rest with
    | nil => simp
    | cons b r2 =>
      show ((a : ℚ)) ≤ (a : ℚ) + ((b : ℚ) + 0)
      have hb : (0 : ℚ) ≤ (b : ℚ) := Nat.cast_nonneg b
      linarith

theorem pct_mono {a b T : ℚ} (hab : a ≤ b) (hT : 0 < T) : a / T * 100 ≤ b / T * 100 := by
  gcongr

theorem cem_ok_inv {prs : List Item} {em : ExecutionMetrics}
    (h : compute_execution_metrics prs = Except.ok em) : em = execCanon prs := by
  cases hany : prs.any execBad with
  | true =>
    rw [compute_execution_metrics_err hany] at h
    exact absurd h (by simp)
  | false =>
    rw [compute_execution_metrics_ok (any_false_all hany)] at h
    injection h with h
    exact h.symm

theorem execCanon_top2_ge_top1 (prs : List Item) :
    (execCanon prs).review_top1_pct ≤ (execCanon prs).review_top2_pct := by
  simp only [execCanon]
  by_cases hT : counterTotal (counterOf (prs.flatMap prReviewerIds)) > 0
  · rw [if_pos hT, if_pos hT, most_common_headD_snd _ (none : Option Int),
      most_common_sum_cast]
    have hle := headD_le_take2_sum (sortedCounts (counterOf (prs.flatMap prReviewerIds)))
    have hTpos : (0 : ℚ) < ((counterTotal (counterOf (prs.flatMap prReviewerIds)) : Nat) : ℚ) := by
      exact_mod_cast hT
    exact pct_mono hle hTpos
  · rw [if_neg hT, if_neg hT]

theorem pysort_singleton (le : α → α → Bool) (e : α) : pysort le [e] = [e] := rfl

theorem counterOf_length_one {K : Type} [DecidableEq K] {ids : List K} {e : K × Nat}
    (h : counterOf ids = [e]) : 1 ≤ e.2 := by
  refine foldl_counterAdd_pos ids [] (by simp) e ?_
  show e ∈ counterOf ids
  rw [h]
  exact List.mem_singleton_self e

theorem ccm_author_pcts (fs : List (Int × Time)) (items : List Item) (ws : Time) :
    ((compute_community_metrics fs items ws).unique_contributors ≠ 1 →
      (compute_community_metrics fs items ws).author_top1_pct ≤
        (compute_community_metrics fs items ws).author_top2_pct) ∧
    ((compute_community_metrics fs items ws).unique_contributors = 1 →
      (compute_community_metrics fs items ws).author_top1_pct = 100 ∧
      (compute_community_metrics fs items ws).author_top2_pct = 0) := by
  rw [compute_community_metrics_eq_canon]
  simp only [commCanon]
  constructor
  · intro hne
    by_cases hT : counterTotal (counterOf (eventAuthorIds items)) > 0
    · have hlen0 : (counterOf (eventAuthorIds items)).length ≠ 0 := by
        intro h0
        rw [List.length_eq_zero.mp h0] at hT
        simp [counterTotal] at hT
      have hlen2 : 1 < (counterOf (eventAuthorIds items)).length := by omega
      have htops : 1 < (most_common (counterOf (eventAuthorIds items)) 2).length := by
        unfold most_common
        rw [List.length_take, (pysort_perm countDescLE _).length_eq]
        omega
      have hcond : (decide (counterTotal (counterOf (eventAuthorIds items)) > 0) &&
          decide ((most_common (counterOf (eventAuthorIds items)) 2).length > 1)) = true := by
        simp [hT, htops]
      rw [if_pos hT, if_pos hcond, most_common_headD_snd _ (0 : Int), most_common_sum_cast]
      have hle := headD_le_take2_sum (sortedCounts (counterOf (eventAuthorIds items)))
      have hTpos : (0 : ℚ) <
          ((counterTotal (counterOf (eventAuthorIds items)) : Nat) : ℚ) := by
        exact_mod_cast hT
      exact pct_mono hle hTpos
    · have hcond : (decide (counterTotal (counterOf (eventAuthorIds items)) > 0) &&
          decide ((most_common (counterOf (eventAuthorIds items)) 2).length > 1)) = false := by
        simp [hT]
      rw [if_neg hT, if_neg (by rw [hcond]; simp : ¬(decide (counterTotal
        (counterOf (eventAuthorIds items)) > 0) &&
        decide ((most_common (counterOf (eventAuthorIds items)) 2).length > 1)) = true)]
  · intro h1
    cases hac : counterOf (eventAuthorIds items) with
    | nil => rw [hac] at h1; simp at h1
    | cons e rest =>
      cases rest with
      | cons e2 r2 => rw [hac] at h1; simp at h1
      | nil =>
        obtain ⟨k, n⟩ := e
        have hn : 1 ≤ n := counterOf_length_one hac
        have hTeq : counterTotal [(k, n)] = n := by simp [counterTotal]
        have htops : most_common [(k, n)] 2 = [(k, n)] := by
          unfold most_common
          rw [pysort_singleton]
          rfl
        have hT : counterTotal [(k, n)] > 0 := by omega
        constructor
        · rw [if_pos hT, htops, hTeq]
          show ((n : Nat) : ℚ) / ((n : Nat) : ℚ) * 100 = 100
          have hne : ((n : Nat) : ℚ) ≠ 0 := by
            have hp : 0 < n := by omega
            have : (0 : ℚ) < ((n : Nat) : ℚ) := by exact_mod_cast hp
            exact ne_of_gt this
          rw [div_self hne]
          norm_num
        · have hcond : (decide (counterTotal [(k, n)] > 0) &&
              decide ((most_common [(k, n)] 2).length > 1)) = false := by
            rw [htops]
            simp
          rw [if_neg (by rw [hcond]; simp : ¬(decide (counterTotal [(k, n)] > 0) &&
            decide ((most_common [(k, n)] 2).length > 1)) = true)]

/-- C1: the metrics document has no backlog snapshot under its rolling
windows (the field is `none`), so the scorer's backlog sub-score is the
constant 100 — the mean of the two age scores at the dict-default value 0
— for EVERY document `analyze_all` produces, rather than the mean of the
age scores of the 90-day-window backlog snapshot.  At the concrete
failing input (an open PR aged 400 days and an open issue aged 800 days)
the claimed computation yields 0 while the code yields 100. -/
theorem c1_backlog_subscore_ignores_rolling_snapshot (prs issues : List Item) (now : Time) :
    (analyze_all prs issues now).map
        (fun d => (d.rolling_windows.last_90_days.backlog,
          (calculate_overall_score d).sub_backlog)) =
      (analyze_all prs issues now).map
        (fun _ => ((none : Option BacklogMetrics), (100 : ℚ))) ∧
    (score_metric "median_open_pr_age_days"
        (compute_backlog [plainPr 1 (-400 * daySec)] [plainIssue 2 (-800 * daySec)]
          0).median_open_pr_age_days +
      score_metric "median_open_issue_age_days"
        (compute_backlog [plainPr 1 (-400 * daySec)] [plainIssue 2 (-800 * daySec)]
          0).median_open_issue_age_days) / 2 = 0 ∧
    (analyze_all [plainPr 1 (-400 * daySec)] [plainIssue 2 (-800 * daySec)] 0).map
        (fun d => (calculate_overall_score d).sub_backlog) = Except.ok 100 := by
  refine ⟨?_, ?_, ?_⟩
  · cases he : analyze_all prs issues now with
    | error e => rfl
    | ok doc =>
      simp only [Except.map]
      congr 1
      have hb := analyze_all_backlog90_none he
      rw [hb, sub_backlog_of_none hb]
  · have h1 : (compute_backlog [plainPr 1 (-400 * daySec)] [plainIssue 2 (-800 * daySec)]
        0).median_open_pr_age_days = ((400 : Int) : ℚ) := rfl
    have h2 : (compute_backlog [plainPr 1 (-400 * daySec)] [plainIssue 2 (-800 * daySec)]
        0).median_open_issue_age_days = ((800 : Int) : ℚ) := rfl
    rw [h1, h2]
    have s1 : score_metric "median_open_pr_age_days" ((400 : Int) : ℚ) = 0 := by
      unfold score_metric
      rw [show targets.lookup "median_open_pr_age_days" = some (7, 90) from rfl]
      unfold score_with_target
      norm_num
    have s2 : score_metric "median_open_issue_age_days" ((800 : Int) : ℚ) = 0 := by
      unfold score_metric
      rw [show targets.lookup "median_open_issue_age_days" = some (14, 180) from rfl]
      unfold score_with_target
      norm_num
    rw [s1, s2]
    norm_num
  · obtain ⟨m, hd⟩ := analyze_all_ok [plainPr 1 (-400 * daySec)] [plainIssue 2 (-800 * daySec)]
      0 (by decide) (by decide) (by decide)
    rw [hd]
    simp only [Except.map]
    congr 1
    exact sub_backlog_of_none rfl

/-- C5: for permuted PR lists and permuted issue lists and the same
current time, the composition of `analyze_all` and the scorer yields an
identical `overall_score` (identical `Except` results, in particular
identical scores on success). -/
theorem c5_overall_score_permutation_invariant (prs₁ prs₂ issues₁ issues₂ : List Item)
    (now : Time) (hp : List.Perm prs₁ prs₂) (hi : List.Perm issues₁ issues₂) :
    (analyze_all prs₁ issues₁ now).map (fun d => (calculate_overall_score d).overall_score) =
      (analyze_all prs₂ issues₂ now).map
        (fun d => (calculate_overall_score d).overall_score) :=
  overall_score_perm_invariant prs₁ prs₂ issues₁ issues₂ now hp hi

/-- C5 witness: swapping two items of the PR list leaves the overall
score unchanged on a concrete dataset. -/
theorem c5_overall_score_permutation_invariant_witness :
    (analyze_all [plainPr 1 0, plainIssue 2 daySec] [plainIssue 3 0] 10).map
        (fun d => (calculate_overall_score d).overall_score) =
      (analyze_all [plainIssue 2 daySec, plainPr 1 0] [plainIssue 3 0] 10).map
        (fun d => (calculate_overall_score d).overall_score) :=
  c5_overall_score_permutation_invariant [plainPr 1 0, plainIssue 2 daySec]
    [plainIssue 2 daySec, plainPr 1 0] [plainIssue 3 0] [plainIssue 3 0] 10
    (List.Perm.swap (plainIssue 2 daySec) (plainPr 1 0) []) (List.Perm.refl _)

/-- C2 counterexample: with exactly one distinct counted author,
`author_top1_pct` is 100 while `author_top2_pct` stays 0, so top-2 is
strictly below top-1 and in particular does not equal it. -/
theorem c2_author_top2_counterexample :
    (compute_community_metrics [] [plainPr 1 0] 0).author_top1_pct = 100 ∧
    (compute_community_metrics [] [plainPr 1 0] 0).author_top2_pct = 0 ∧
    ¬((compute_community_metrics [] [plainPr 1 0] 0).author_top1_pct ≤
      (compute_community_metrics [] [plainPr 1 0] 0).author_top2_pct) := by
  have h1 : (compute_community_metrics [] [plainPr 1 0] 0).author_top1_pct =
      ((1 : Nat) : ℚ) / ((1 : Nat) : ℚ) * 100 := rfl
  have h2 : (compute_community_metrics [] [plainPr 1 0] 0).author_top2_pct = 0 := rfl
  rw [h1, h2]
  norm_num

/-- C2 amended: top-2 concentration is at least top-1 for reviewer
concentration always, and for author concentration whenever the number of
distinct counted authors is not exactly one; with exactly one distinct
counted author, `author_top1_pct` is 100 while `author_top2_pct` is 0
(the source sets top-2 only when at least two distinct authors exist, so
there top-2 falls below top-1 instead of equalling it). -/
theorem c2_amended_concentration (prs items : List Item) (fs : List (Int × Time)) (ws : Time)
    (em : ExecutionMetrics) (hex : compute_execution_metrics prs = Except.ok em) :
    em.review_top1_pct ≤ em.review_top2_pct ∧
    ((compute_community_metrics fs items ws).unique_contributors ≠ 1 →
      (compute_community_metrics fs items ws).author_top1_pct ≤
        (compute_community_metrics fs items ws).author_top2_pct) ∧
    ((compute_community_metrics fs items ws).unique_contributors = 1 →
      (compute_community_metrics fs items ws).author_top1_pct = 100 ∧
      (compute_community_metrics fs items ws).author_top2_pct = 0) := by
  refine ⟨?_, (ccm_author_pcts fs items ws).1, (ccm_author_pcts fs items ws).2⟩
  rw [cem_ok_inv hex]
  exact execCanon_top2_ge_top1 prs

/-- C2 amended witness: with one PR reviewed once, review top-2 equals
top-1; with a single counted author, author top-1 is 100 and top-2 is 0. -/
theorem c2_amended_concentration_witness :
    ({ median_merge_days := 0, median_first_response_hours := 0, review_top1_pct := 0,
       review_top2_pct := 0, total_prs := 0,
       top_reviewers_by_id := [] } : ExecutionMetrics).review_top1_pct ≤
      ({ median_merge_days := 0, median_first_response_hours := 0, review_top1_pct := 0,
         review_top2_pct := 0, total_prs := 0,
         top_reviewers_by_id := [] } : ExecutionMetrics).review_top2_pct ∧
    (compute_community_metrics [] [plainPr 1 0] 0).author_top1_pct = 100 ∧
    (compute_community_metrics [] [plainPr 1 0] 0).author_top2_pct = 0 := by
  have h := c2_amended_concentration [] [plainPr 1 0] [] 0
    { median_merge_days := 0, median_first_response_hours := 0, review_top1_pct := 0,
      review_top2_pct := 0, total_prs := 0, top_reviewers_by_id := [] } rfl
  exact ⟨h.1, h.2.2 rfl⟩

/-- C4 counterexample: an open PR whose whole-day open age is exactly 180
days is NOT placed in the decision-required bucket (the source tests
`180 < days`, excluding the claimed-inclusive boundary). -/
theorem c4_stalled_decision_boundary_counterexample :
    itemAgeDays (180 * daySec) (plainPr 1 0) = 180 ∧
    (generate_stalled_actions [plainPr 1 0] [] (180 * daySec)).map
        (fun s => s.decision_required_prs_180_365_days) = Except.ok [] :=
  ⟨by decide, rfl⟩

/-- C4 amended: for open PRs and issues with present `createdAt`, the
stalled-action derivation puts a number in the decision-required bucket
exactly when the whole-day open age lies in the interval (180, 365]
(exclusive of 180, inclusive of 365), in the archival bucket exactly when
the PR age is strictly greater than 365 days, and in the closure bucket
exactly when the issue age is strictly greater than 730 days. -/
theorem c4_amended_stalled_buckets (open_prs open_issues : List Item) (now : Time)
    (hp : ∀ x ∈ open_prs, x.createdAt.isSome) (hi : ∀ x ∈ open_issues, x.createdAt.isSome) :
    generate_stalled_actions open_prs open_issues now = Except.ok
      { archive_prs_over_365_days :=
          (open_prs.filter (fun x => decide (365 < itemAgeDays now x))).map (fun x => x.number)
        close_issues_over_730_days :=
          (open_issues.filter (fun x => decide (730 < itemAgeDays now x))).map
            (fun x => x.number)
        decision_required_prs_180_365_days :=
          (open_prs.filter (fun x => decide (180 < itemAgeDays now x) &&
            decide (itemAgeDays now x ≤ 365))).map (fun x => x.number)
        decision_required_issues_180_365_days :=
          (open_issues.filter (fun x => decide (180 < itemAgeDays now x) &&
            decide (itemAgeDays now x ≤ 365))).map (fun x => x.number) } := by
  unfold generate_stalled_actions
  simp only [stalledFilterGo_ok now _ hp, stalledFilterGo_ok now _ hi]
  rfl

/-- C4 amended witness: a PR open 200 whole days lands in the decision
bucket and nowhere else. -/
theorem c4_amended_stalled_buckets_witness :
    generate_stalled_actions [plainPr 1 0] [] (200 * daySec) = Except.ok
      { archive_prs_over_365_days := []
        close_issues_over_730_days := []
        decision_required_prs_180_365_days := [1]
        decision_required_issues_180_365_days := [] } := by
  rw [c4_amended_stalled_buckets [plainPr 1 0] [] (200 * daySec) (by decide) (by decide)]
  rfl

/-- C6 witness: the configured lower-is-better band for merge days scores
100 at 0 and 0 at 30; the higher-is-better band for return rate scores
100 at 60; an unconfigured metric name scores 0. -/
theorem c6_score_metric_bands_witness :
    score_with_target (some (1, 30)) 0 = 100 ∧
    score_with_target (some (1, 30)) 30 = 0 ∧
    score_with_target (some (60, 10)) 60 = 100 ∧
    score_metric "unconfigured_metric" 5 = 0 :=
  ⟨((c6_score_metric_bands 1 30 0 "x").1 (by decide)).1 (by decide),
   ((c6_score_metric_bands 1 30 30 "x").1 (by decide)).2.1 (by decide),
   ((c6_score_metric_bands 60 10 60 "x").2.1 (by decide)).1 (by decide),
   (c6_score_metric_bands 60 10 5 "unconfigured_metric").2.2 rfl⟩

end RepoHealth
